import Mathlib

/-!
Verification development for the fable-flow book-production pipeline.

The Python sources are shallowly embedded: Python strings become `List Char`,
pure functions become Lean functions, the stateful generation loop becomes a
recursive function over the list of backend responses, and the `PDFGenerator`
object state becomes an explicit state record.  Each definition cites the
source file and line range it is translated from.
-/

/-- Python strings are modelled as lists of characters. -/
abbrev PyStr := List Char

/-- Character data of a Lean string literal, used to write Python string literals. -/
def str (s : String) : PyStr := s.data

/-- Python whitespace (`str.strip()`, regex `\s`), ASCII fragment:
space, tab, newline, carriage return, vertical tab, form feed. -/
def isPyWs (c : Char) : Bool :=
  c == ' ' || c == '\t' || c == '\n' || c == '\r' || c == Char.ofNat 11 || c == Char.ofNat 12

/-- Python `s.strip()`. -/
def pyStrip (s : PyStr) : PyStr :=
  ((s.dropWhile isPyWs).reverse.dropWhile isPyWs).reverse

/-- Python `s.rstrip(chars)` for an explicit character set. -/
def pyRstrip (chars : List Char) (s : PyStr) : PyStr :=
  (s.reverse.dropWhile (fun c => chars.contains c)).reverse

/-- Python `s.lower()` (ASCII fragment, which covers all pattern strings involved). -/
def pyLower (s : PyStr) : PyStr := s.map Char.toLower

/-- Python `h.startswith(n)`: `n` is a prefix of `h`. -/
def startsWithB : PyStr → PyStr → Bool
  | [], _ => true
  | _ :: _, [] => false
  | a :: as, b :: bs => a == b && startsWithB as bs

/-- Case-insensitive prefix test: the (already lowercase) pattern `a` is a prefix
of the text once the text is lowercased. -/
def ciStartsWith : PyStr → PyStr → Bool
  | [], _ => true
  | _ :: _, [] => false
  | a :: as, b :: bs => a == b.toLower && ciStartsWith as bs

/-- Python `h.endswith(n)`. -/
def endsWithB (n h : PyStr) : Bool :=
  decide (n.length ≤ h.length) && startsWithB n (h.drop (h.length - n.length))

/-- Python `n in h` (substring containment). -/
def containsB (n : PyStr) : PyStr → Bool
  | [] => startsWithB n []
  | c :: rest => startsWithB n (c :: rest) || containsB n rest

/-! ## ContinuationService
`src/producer/fable_flow/continuation.py`.  A backend response is abstracted to
the data the loop extracts from it (lines 84-91): message content and finish
reason.  Token accounting, logging and the outgoing message history are not
involved in any claim and are omitted. -/

/-- One backend chat-completion response as consumed by the loop. -/
structure BackendResponse where
  content : PyStr
  finishReason : PyStr
deriving DecidableEq

/-- The continuation-indicator phrase list of `_has_continuation_indicators`
(continuation.py lines 293-315), in source order. -/
def continuationPatterns : List PyStr :=
  [ str "[continuing with remaining chapters in next response due to length...]"
  , str "[continuing in next response due to length constraints...]"
  , str "[continued in next response due to length limits...]"
  , str "[continuation follows in next response...]"
  , str "[remaining content in next response...]"
  , str "(continuing with remaining chapters in next response due to length...)"
  , str "(continued in next response due to length constraints...)"
  , str "(continuation follows due to length limits...)"
  , str "continuing with remaining chapters in next response due to length"
  , str "continued in next response due to length constraints"
  , str "continuation follows in next response"
  , str "remaining chapters will be provided in the next response"
  , str "due to length constraints"
  , str "due to length limits"
  , str "in next response due to length"
  , str "continuing in next response"
  , str "continuation follows" ]

/-- `_has_continuation_indicators` (continuation.py lines 279-330): lowercase and
strip the content, check whether it ends with any pattern, then check whether any
pattern occurs in the last 200 characters. -/
def hasContinuationIndicators (content : PyStr) : Bool :=
  if content.isEmpty then false
  else
    let contentLower := pyStrip (pyLower content)
    let tailContent :=
      if decide (200 < contentLower.length) then
        contentLower.drop (contentLower.length - 200)
      else contentLower
    continuationPatterns.any (fun p => endsWithB (pyLower p) contentLower)
      || continuationPatterns.any (fun p => containsB (pyLower p) tailContent)

/-- Worker for `removeAlt2`, structurally recursive on a fuel bound (one unit of
fuel per character position, enough because every step consumes at least one
character); the fuel-exhausted case is unreachable when the fuel starts at the
input length. -/
def removeAlt2Go (a b : PyStr) : Nat → PyStr → PyStr
  | _, [] => []
  | 0, s => s
  | fuel + 1, c :: rest =>
    if !a.isEmpty && ciStartsWith a (c :: rest) then
      removeAlt2Go a b fuel ((c :: rest).drop a.length)
    else if !b.isEmpty && ciStartsWith b (c :: rest) then
      removeAlt2Go a b fuel ((c :: rest).drop b.length)
    else c :: removeAlt2Go a b fuel rest

/-- `re.sub` of a case-insensitive two-literal alternative (the 3-dot form `a`
tried before the 2-dot form `b`, mirroring the greedy `\.\.\.?`), removing every
non-overlapping occurrence left to right.  Used for the bracketed and
parenthesised patterns of `_clean_continuation_indicators` (lines 343-350).
The `isEmpty` guards are irrelevant for the nonempty source patterns. -/
def removeAlt2 (a b s : PyStr) : PyStr := removeAlt2Go a b s.length s

/-- End of string, or immediately before a newline: where `$` matches under
`re.MULTILINE`. -/
def atEol : PyStr → Bool
  | [] => true
  | c :: _ => c == '\n'

/-- `re.sub` of `lit\.?$` with `IGNORECASE | MULTILINE` (the "direct statements
at end of content" patterns, continuation.py lines 352-355): remove every
occurrence of `lit` with an optional trailing dot (greedy) that is followed by
the end of the string or a newline. -/
def removeEndAnchoredGo (lit : PyStr) : Nat → PyStr → PyStr
  | _, [] => []
  | 0, s => s
  | fuel + 1, c :: rest =>
    if !lit.isEmpty && ciStartsWith (lit ++ ['.']) (c :: rest)
        && atEol ((c :: rest).drop (lit.length + 1)) then
      removeEndAnchoredGo lit fuel ((c :: rest).drop (lit.length + 1))
    else if !lit.isEmpty && ciStartsWith lit (c :: rest)
        && atEol ((c :: rest).drop lit.length) then
      removeEndAnchoredGo lit fuel ((c :: rest).drop lit.length)
    else c :: removeEndAnchoredGo lit fuel rest

/-- Wrapper starting `removeEndAnchoredGo` with fuel equal to the input length. -/
def removeEndAnchored (lit s : PyStr) : PyStr := removeEndAnchoredGo lit s.length s

/-- The eight bracketed/parenthesised removal patterns of
`_clean_continuation_indicators` (continuation.py lines 343-350), each as its
3-dot and 2-dot literal alternative (regex `\.\.\.?`). -/
def bracketRemovalAlts : List (PyStr × PyStr) :=
  [ (str "[continuing with remaining chapters in next response due to length...]",
     str "[continuing with remaining chapters in next response due to length..]")
  , (str "[continuing in next response due to length constraints...]",
     str "[continuing in next response due to length constraints..]")
  , (str "[continued in next response due to length limits...]",
     str "[continued in next response due to length limits..]")
  , (str "[continuation follows in next response...]",
     str "[continuation follows in next response..]")
  , (str "[remaining content in next response...]",
     str "[remaining content in next response..]")
  , (str "(continuing with remaining chapters in next response due to length...)",
     str "(continuing with remaining chapters in next response due to length..)")
  , (str "(continued in next response due to length constraints...)",
     str "(continued in next response due to length constraints..)")
  , (str "(continuation follows due to length limits...)",
     str "(continuation follows due to length limits..)") ]

/-- The four end-anchored removal patterns of `_clean_continuation_indicators`
(continuation.py lines 351-355), without their optional trailing dot. -/
def endRemovalLits : List PyStr :=
  [ str "continuing with remaining chapters in next response due to length"
  , str "continued in next response due to length constraints"
  , str "continuation follows in next response"
  , str "remaining chapters will be provided in the next response" ]

/-- `_clean_continuation_indicators` (continuation.py lines 332-374): apply the
twelve removal substitutions in source order, then strip trailing
whitespace/newlines. -/
def cleanContinuationIndicators (content : PyStr) : PyStr :=
  if content.isEmpty then content
  else
    let afterAlts := bracketRemovalAlts.foldl (fun s p => removeAlt2 p.1 p.2 s) content
    let afterEnds := endRemovalLits.foldl (fun s l => removeEndAnchored l s) afterAlts
    pyRstrip ['\n', '\r', '\t', ' '] afterEnds

/-- The continuation-preamble phrases stripped by `_merge_continuation`
(continuation.py lines 225-230). -/
def continuationPreambles : List PyStr :=
  [ str "Continuing from where I left off:"
  , str "Continuing:"
  , str "Here's the continuation:"
  , str "Resuming:" ]

/-- `_merge_continuation` (continuation.py lines 220-241): strip the new chunk,
drop the first matching continuation preamble (case-sensitive `startswith`,
first match only), then concatenate — directly if the accumulated text already
ends in a newline, otherwise with a blank-line separator. -/
def mergeContinuation (original continuation : PyStr) : PyStr :=
  let c0 := pyStrip continuation
  let c1 :=
    match continuationPreambles.find? (fun p => startsWithB p c0) with
    | some p => pyStrip (c0.drop p.length)
    | none => c0
  if endsWithB (str "\n") original then original ++ c1
  else original ++ str "\n\n" ++ c1

/-- Observable result of one logical generation call: final merged text, the
`total_continuations` and `finish_reason` metadata entries (continuation.py
lines 169-174), and the number of backend calls issued. -/
structure GenResult where
  text : PyStr
  totalContinuations : Nat
  finishReason : PyStr
  backendCalls : Nat
deriving DecidableEq

/-- The `while` loop of `_generate_with_continuation_detection` (continuation.py
lines 69-167), one recursive step per backend call.  The supplied list is the
sequence of backend responses; exhausting it models the `except` branch (lines
165-167), which stops the loop and returns the accumulated state.  Branches in
source order: accumulate (94-97); `stop` with indicator (107-132, including the
re-merge of the cleaned content at 117-123); `stop` without indicator (133-136);
`length` (138-153); `content_filter`/`function_call` and unknown reasons
(155-163) both simply stop. -/
def continuationLoop (maxCont : Nat) : List BackendResponse → PyStr → Nat → PyStr → GenResult
  | [], full, count, fin => ⟨full, count, fin, 0⟩
  | r :: rest, full, count, _ =>
    let full1 := if count = 0 then r.content else mergeContinuation full r.content
    if r.finishReason = str "stop" then
      if hasContinuationIndicators r.content then
        if count + 1 ≤ maxCont then
          let cleaned := cleanContinuationIndicators r.content
          let full2 := if count + 1 = 1 then cleaned else mergeContinuation full1 cleaned
          let res := continuationLoop maxCont rest full2 (count + 1) r.finishReason
          { res with backendCalls := res.backendCalls + 1 }
        else ⟨full1, count + 1, r.finishReason, 1⟩
      else ⟨full1, count, r.finishReason, 1⟩
    else if r.finishReason = str "length" then
      if count + 1 ≤ maxCont then
        let res := continuationLoop maxCont rest full1 (count + 1) r.finishReason
        { res with backendCalls := res.backendCalls + 1 }
      else ⟨full1, count + 1, r.finishReason, 1⟩
    else ⟨full1, count, r.finishReason, 1⟩

/-- `_generate_with_continuation_detection` entry state (continuation.py lines
60-64): empty text, zero continuations, empty finish reason. -/
def generateWithContinuationDetection (maxCont : Nat) (responses : List BackendResponse) : GenResult :=
  continuationLoop maxCont responses [] 0 []

/-- `generate_with_continuation` (continuation.py lines 31-53): the hybrid
detection loop when continuation is enabled, otherwise a single backend call
(`_single_generation`, lines 243-273). -/
def generateWithContinuation (enabled : Bool) (maxCont : Nat)
    (responses : List BackendResponse) : GenResult :=
  if enabled then generateWithContinuationDetection maxCont responses
  else
    match responses with
    | [] => ⟨[], 0, [], 0⟩
    | r :: _ => ⟨r.content, 0, r.finishReason, 1⟩

/-- C1 failing input, named for reuse between the statement's conjuncts. -/
def c1Responses : List BackendResponse :=
  [⟨str "A", str "length"⟩, ⟨str "B continuation follows", str "stop"⟩]

/-- C1: the merged text is NOT free of duplicated continuation content.  At the
failing input — a `length`-truncated chunk "A" followed by a `stop` chunk whose
tail carries the detected indicator phrase "continuation follows" — the loop
first merges the raw chunk (continuation.py line 97) and then merges the
cleaned copy of the same chunk again (line 121-123), so chunk 2 appears twice
in the result; moreover the detected indicator phrase is not among the removal
patterns of `_clean_continuation_indicators`, so it survives in the merged
text instead of being stripped before merge. -/
theorem c1_duplicate_merge_and_unstripped_indicator :
    (generateWithContinuation true 5 c1Responses).text
      = str "A\n\nB continuation follows\n\nB continuation follows"
    ∧ containsB (str "B continuation follows")
        (str "A\n\nB continuation follows\n\nB continuation follows") = true
    ∧ containsB (str "continuation follows")
        ((generateWithContinuation true 5 c1Responses).text) = true := by
  refine ⟨by decide, by decide, by decide⟩

/-- Helper for C2: once at least one continuation has happened, a chain of
`length`-truncated chunks followed by an indicator-free `stop` chunk folds all
remaining chunks into the accumulated text with `_merge_continuation`, one
backend call per chunk. -/
theorem continuationLoop_length_chain (maxCont : Nat) (clast : PyStr)
    (hind : hasContinuationIndicators clast = false) :
    ∀ (cs : List PyStr) (count : Nat) (full fin : PyStr), 1 ≤ count →
      count + cs.length ≤ maxCont →
      continuationLoop maxCont
          (cs.map (fun c => ⟨c, str "length"⟩) ++ [⟨clast, str "stop"⟩]) full count fin
        = ⟨(cs ++ [clast]).foldl mergeContinuation full, count + cs.length,
            str "stop", cs.length + 1⟩ := by
  intro cs
  induction cs with
  | nil =>
    intro count full fin h1 _h2
    have hc0 : ¬(count = 0) := by omega
    simp [continuationLoop, hind, hc0]
  | cons c cs ih =>
    intro count full fin h1 h2
    have hc0 : ¬(count = 0) := by omega
    have hlen : (c :: cs).length = cs.length + 1 := by simp
    have hle : count + 1 ≤ maxCont := by rw [hlen] at h2; omega
    have hne : ¬(str "length" = str "stop") := by decide
    have hrec := ih (count + 1) (mergeContinuation full c) (str "length") (by omega)
      (by rw [hlen] at h2; omega)
    simp only [List.map_cons, List.cons_append, continuationLoop,
      if_neg hne, if_pos (rfl : str "length" = str "length"), if_pos hle, if_neg hc0]
    simp only [List.append_eq, if_true, Nat.zero_add]
    rw [hrec]
    simp only [GenResult.mk.injEq, List.length_cons, List.cons_append, List.foldl_cons,
      true_and, and_true]
    omega

/-- C2 statement condensed: the expected merged text — the first chunk, with each
later chunk folded in by `_merge_continuation`. -/
def expectedMergedText (cs : List PyStr) (clast : PyStr) : PyStr :=
  match cs with
  | [] => clast
  | c0 :: rest => (rest ++ [clast]).foldl mergeContinuation c0

/-- C2: with continuation enabled, if the backend reports `finish_reason=length`
on the first `k` calls (`k ≤ max_continuations`) and `stop` with no continuation
indicator on the next, `generate_with_continuation` issues exactly `k+1` backend
calls and returns the fold of `_merge_continuation` over all `k+1` chunk
contents in order (which strips continuation-preamble artifacts as it merges),
with `k` recorded continuations and final finish reason `stop`. -/
theorem length_chunks_then_stop_merges_all (maxCont k : Nat) (cs : List PyStr) (clast : PyStr)
    (hk : cs.length = k) (hle : k ≤ maxCont)
    (hind : hasContinuationIndicators clast = false) :
    generateWithContinuation true maxCont
        (cs.map (fun c => ⟨c, str "length"⟩) ++ [⟨clast, str "stop"⟩])
      = ⟨expectedMergedText cs clast, k, str "stop", k + 1⟩ := by
  subst hk
  cases cs with
  | nil =>
    simp [generateWithContinuation, generateWithContinuationDetection,
      continuationLoop, hind, expectedMergedText]
  | cons c0 rest =>
    have h1 : 1 ≤ maxCont := by simp at hle; omega
    have hne : ¬(str "length" = str "stop") := by decide
    have hrec := continuationLoop_length_chain maxCont clast hind rest 1 c0 (str "length")
      (by omega) (by simp at hle ⊢; omega)
    simp only [generateWithContinuation, if_pos rfl, generateWithContinuationDetection,
      List.map_cons, List.cons_append, continuationLoop, if_neg hne,
      if_pos (rfl : str "length" = str "length"), if_pos (by omega : 0 + 1 ≤ maxCont),
      if_pos (rfl : (0 : Nat) = 0), expectedMergedText]
    simp only [List.append_eq, if_true, Nat.zero_add]
    rw [hrec]
    simp only [GenResult.mk.injEq, List.length_cons, true_and, and_true]
    omega

/-- Witness for `length_chunks_then_stop_merges_all` at a concrete input:
two length-truncated chunks, then a clean stop. -/
theorem length_chunks_then_stop_merges_all_witness :
    generateWithContinuation true 3
        [⟨str "X", str "length"⟩, ⟨str "Y", str "length"⟩, ⟨str "Z", str "stop"⟩]
      = ⟨expectedMergedText [str "X", str "Y"] (str "Z"), 2, str "stop", 3⟩ :=
  length_chunks_then_stop_merges_all 3 2 [str "X", str "Y"] (str "Z")
    (by decide) (by decide) (by decide)

/-- C3 counterexample: with `max_continuations = 0` and a single
`finish_reason=length` response, the counter is incremented before the bound
check (continuation.py line 140), so the returned `total_continuations`
metadata value is 1, exceeding the configured maximum 0. -/
theorem reported_continuations_can_exceed_max :
    (generateWithContinuation true 0 [⟨str "a", str "length"⟩]).totalContinuations = 1
    ∧ ¬ (generateWithContinuation true 0 [⟨str "a", str "length"⟩]).totalContinuations ≤ 0 := by
  refine ⟨by decide, by decide⟩

/-- Helper for C3: from any loop state with `count ≤ max_continuations`, the
final continuation counter is at most `max_continuations + 1` and the loop
issues at most `max_continuations + 1 - count` further backend calls. -/
theorem continuationLoop_bounds (maxCont : Nat) :
    ∀ (responses : List BackendResponse) (full : PyStr) (count : Nat) (fin : PyStr),
      count ≤ maxCont →
      (continuationLoop maxCont responses full count fin).totalContinuations ≤ maxCont + 1
      ∧ (continuationLoop maxCont responses full count fin).backendCalls + count ≤ maxCont + 1 := by
  intro responses
  induction responses with
  | nil =>
    intro full count fin hc
    simp only [continuationLoop]
    omega
  | cons r rest ih =>
    intro full count fin hc
    obtain ⟨content, fin0⟩ := r
    by_cases hstop : fin0 = str "stop"
    · subst hstop
      by_cases hind : hasContinuationIndicators content
      · by_cases hle : count + 1 ≤ maxCont
        · by_cases hc0 : count = 0
          · subst hc0
            have h := ih (cleanContinuationIndicators content) 1 (str "stop") (by omega)
            simp [continuationLoop, hind, hle]
            omega
          · have h := ih (mergeContinuation (mergeContinuation full content)
              (cleanContinuationIndicators content)) (count + 1) (str "stop") hle
            simp [continuationLoop, hind, hle, hc0]
            omega
        · simp [continuationLoop, hind, hle]
          omega
      · simp [continuationLoop, hind]
        omega
    · by_cases hlen : fin0 = str "length"
      · subst hlen
        have hne : ¬(str "length" = str "stop") := by decide
        by_cases hle : count + 1 ≤ maxCont
        · by_cases hc0 : count = 0
          · subst hc0
            have h := ih content 1 (str "length") (by omega)
            simp [continuationLoop, hne, hle]
            omega
          · have h := ih (mergeContinuation full content) (count + 1) (str "length") hle
            simp [continuationLoop, hne, hle, hc0]
            omega
        · simp [continuationLoop, hne, hle]
          omega
      · simp [continuationLoop, hstop, hlen]
        omega

/-- C3 amended: over every backend response sequence the number of backend
calls issued by `generate_with_continuation` is at most `max_continuations + 1`
(so at most `max_continuations` continuation calls after the initial one), and
the function returns normally — but the continuation counter it reports as
`total_continuations` is only bounded by `max_continuations + 1`: when the
bound is hit the counter has already been incremented past the maximum
(see `reported_continuations_can_exceed_max`). -/
theorem continuation_counter_and_calls_bounded (maxCont : Nat)
    (responses : List BackendResponse) :
    (generateWithContinuation true maxCont responses).totalContinuations ≤ maxCont + 1
    ∧ (generateWithContinuation true maxCont responses).backendCalls ≤ maxCont + 1 := by
  have h := continuationLoop_bounds maxCont responses [] 0 [] (by omega)
  simp only [generateWithContinuation, generateWithContinuationDetection, if_true] at h ⊢
  omega

/-! ## StoryHTMLFormatter.detect_chapters
`src/producer/fable_flow/story_formatter.py`, lines 26-89. -/

/-- Python `story_text.split("\n")`: split on every newline, keeping empty
pieces. -/
def splitLines : PyStr → List PyStr
  | [] => [[]]
  | c :: rest =>
    if c = '\n' then [] :: splitLines rest
    else
      match splitLines rest with
      | [] => [[c]]
      | l :: ls => (c :: l) :: ls

/-- Python `"\n".join(lines)`. -/
def joinLines : List PyStr → PyStr
  | [] => []
  | [l] => l
  | l :: ls => l ++ '\n' :: joinLines ls

/-- The spelled-out ordinal alternatives of the chapter regex
(story_formatter.py line 44), lowercase for the case-insensitive match. -/
def ordinalWords : List PyStr :=
  [str "one", str "two", str "three", str "four", str "five",
   str "six", str "seven", str "eight", str "nine", str "ten"]

/-- The regex tail `(?:[:\s].*)?$`: the remainder of the line is empty, or
starts with a colon or a whitespace character (after which `.*` absorbs the
rest; the stripped line contains no newline). -/
def chapterTailOk : PyStr → Bool
  | [] => true
  | c :: _ => c == ':' || isPyWs c

/-- The chapter-header pattern of `detect_chapters` (story_formatter.py line
44), `^(?:##\s*)?Chapter\s+(?:\d+|One|Two|...|Ten)(?:[:\s].*)?$` with
`re.IGNORECASE`, applied via `re.match` to the stripped line.  The regex is
deterministic: the optional `##` group can only succeed one way, `\s+` and
`\d+` are maximal-munch (no later element can consume their characters), and
the ordinal alternatives are mutually non-prefix. -/
def matchChapterLine (stripped : PyStr) : Bool :=
  let core := if startsWithB (str "##") stripped
              then (stripped.drop 2).dropWhile isPyWs else stripped
  if ciStartsWith (str "chapter") core then
    let r0 := core.drop 7
    if (r0.takeWhile isPyWs).isEmpty then false
    else
      let r1 := r0.dropWhile isPyWs
      let digits := r1.takeWhile Char.isDigit
      if !digits.isEmpty then chapterTailOk (r1.drop digits.length)
      else
        match ordinalWords.find? (fun w => ciStartsWith w r1) with
        | some w => chapterTailOk (r1.drop w.length)
        | none => false
  else false

/-- The pre-chapter keep condition of `detect_chapters` (story_formatter.py
line 78): before any chapter marker, a line is accumulated only if its
stripped form is nonempty and starts with neither `#` nor `---`. -/
def preChapterKeep (line : PyStr) : Bool :=
  let stripped := pyStrip line
  !stripped.isEmpty && !startsWithB (str "#") stripped
    && !startsWithB (str "---") stripped

/-- The line loop of `detect_chapters` (story_formatter.py lines 47-86): one
step per line, carrying the current chapter title (if any), the accumulated
content lines, the book-title-seen flag, and the finished chapters.  The final
cases mirror lines 81-86: close the open chapter, or emit the single synthetic
"Story" chapter when content was accumulated without any marker. -/
def dcLoop : List PyStr → Option PyStr → List PyStr → Bool → List (PyStr × PyStr) →
    List (PyStr × PyStr)
  | [], titleState, content, _, acc =>
    match titleState with
    | some t => acc ++ [(t, joinLines content)]
    | none => if content.isEmpty then acc else acc ++ [(str "Story", joinLines content)]
  | line :: rest, titleState, content, seen, acc =>
    let stripped := pyStrip line
    if !seen && startsWithB (str "#") stripped then
      dcLoop rest titleState content true acc
    else if matchChapterLine stripped then
      let acc2 := match titleState with
        | some t => acc ++ [(t, joinLines content)]
        | none => acc
      dcLoop rest (some (pyStrip (stripped.dropWhile (fun c => c = '#')))) [] seen acc2
    else
      match titleState with
      | some _ =>
        if content.isEmpty && stripped.isEmpty then dcLoop rest titleState content seen acc
        else dcLoop rest titleState (content ++ [line]) seen acc
      | none =>
        if preChapterKeep line then dcLoop rest titleState (content ++ [line]) seen acc
        else dcLoop rest titleState content seen acc

/-- `detect_chapters` (story_formatter.py lines 26-89). -/
def detectChapters (storyText : PyStr) : List (PyStr × PyStr) :=
  dcLoop (splitLines storyText) none [] false []

/-- C6 counterexample: the input `"a\n\nb"` contains no chapter-marker line and
no heading line at all, yet the returned "Story" content is `"a\nb"` — the
blank line has been dropped — instead of the entire input. -/
theorem story_fallback_drops_blank_lines :
    detectChapters (str "a\n\nb") = [(str "Story", str "a\nb")]
    ∧ ¬ detectChapters (str "a\n\nb") = [(str "Story", str "a\n\nb")] := by
  refine ⟨by decide, by decide⟩

/-- Helper for C6: on marker-free lines the loop keeps exactly the lines
passing `preChapterKeep`, appended to the already-accumulated content. -/
theorem dcLoop_no_marker :
    ∀ (lines : List PyStr), (∀ l ∈ lines, matchChapterLine (pyStrip l) = false) →
    ∀ (content : List PyStr) (seen : Bool) (acc : List (PyStr × PyStr)),
    dcLoop lines none content seen acc =
      (if (content ++ lines.filter preChapterKeep).isEmpty then acc
       else acc ++ [(str "Story", joinLines (content ++ lines.filter preChapterKeep))]) := by
  intro lines
  induction lines with
  | nil =>
    intro _ content seen acc
    simp [dcLoop]
  | cons line rest ih =>
    intro h content seen acc
    have hline : matchChapterLine (pyStrip line) = false := h line (by simp)
    have hrest : ∀ l ∈ rest, matchChapterLine (pyStrip l) = false :=
      fun l hl => h l (by simp [hl])
    by_cases hhash : startsWithB (str "#") (pyStrip line) = true
    · by_cases hseen : seen = true
      · have hkeep : preChapterKeep line = false := by
          simp [preChapterKeep, hhash]
        subst hseen
        simp only [dcLoop, Bool.not_true, Bool.false_and, Bool.false_eq_true, if_false,
          hline, hkeep, List.filter_cons_of_neg, ih hrest]
        simp [hkeep]
      · have hkeep : preChapterKeep line = false := by
          simp [preChapterKeep, hhash]
        have hseen2 : seen = false := by
          cases seen
          · rfl
          · simp at hseen
        subst hseen2
        simp only [dcLoop, Bool.not_false, Bool.true_and, hhash, if_true, hline,
          ih hrest]
        simp [hkeep]
    · have hhash2 : startsWithB (str "#") (pyStrip line) = false := by
        cases hs : startsWithB (str "#") (pyStrip line)
        · rfl
        · exact absurd hs hhash
      have hcond : (!seen && startsWithB (str "#") (pyStrip line)) = false := by
        simp [hhash2]
      by_cases hkeep : preChapterKeep line = true
      · simp only [dcLoop, hcond, Bool.false_eq_true, if_false, hline, hkeep, if_true,
          ih hrest]
        simp [hkeep, List.append_assoc]
      · have hkeep2 : preChapterKeep line = false := by
          cases hk : preChapterKeep line
          · rfl
          · exact absurd hk hkeep
        simp only [dcLoop, hcond, Bool.false_eq_true, if_false, hline, hkeep2,
          ih hrest]
        simp [hkeep2]

/-- C6 amended: for input text none of whose lines matches the chapter pattern,
`detect_chapters` returns exactly one pair titled "Story" whose content is the
input's lines with every blank line, every line starting with `#` (not only
leading heading lines) and every line starting with `---` removed — and it
returns the empty list (no "Story" chapter) when no line survives that filter. -/
theorem detectChapters_no_marker (text : PyStr)
    (h : ∀ l ∈ splitLines text, matchChapterLine (pyStrip l) = false) :
    detectChapters text =
      (if ((splitLines text).filter preChapterKeep).isEmpty then []
       else [(str "Story", joinLines ((splitLines text).filter preChapterKeep))]) := by
  have hl := dcLoop_no_marker (splitLines text) h [] false []
  simpa [detectChapters] using hl

/-- Witness for `detectChapters_no_marker`: a heading line, a blank line, a
`---` rule and two content lines; only the content lines survive. -/
theorem detectChapters_no_marker_witness :
    detectChapters (str "# Title\nhello\n---\n\nworld") =
      (if ((splitLines (str "# Title\nhello\n---\n\nworld")).filter preChapterKeep).isEmpty
       then []
       else [(str "Story",
         joinLines ((splitLines (str "# Title\nhello\n---\n\nworld")).filter preChapterKeep))]) :=
  detectChapters_no_marker (str "# Title\nhello\n---\n\nworld") (by decide)

/-- A newline-free line splits to itself. -/
theorem splitLines_no_newline : ∀ (l : PyStr), '\n' ∉ l → splitLines l = [l] := by
  intro l
  induction l with
  | nil => intro _; rfl
  | cons c rest ih =>
    intro h
    have hc : ¬(c = '\n') := fun hh => h (by simp [hh])
    have hrest : '\n' ∉ rest := fun hh => h (by simp [hh])
    simp only [splitLines, if_neg hc, ih hrest]

/-- Splitting after a newline-free first line peels it off. -/
theorem splitLines_append_newline : ∀ (l : PyStr) (rest : PyStr), '\n' ∉ l →
    splitLines (l ++ '\n' :: rest) = l :: splitLines rest := by
  intro l rest
  induction l with
  | nil =>
    intro _
    simp [splitLines]
  | cons c l2 ih =>
    intro h
    have hc : ¬(c = '\n') := fun hh => h (by simp [hh])
    have h2 : '\n' ∉ l2 := fun hh => h (by simp [hh])
    simp only [List.cons_append, splitLines, if_neg hc, List.append_eq, ih h2]

/-- `split("\n")` inverts `"\n".join` on a nonempty list of newline-free lines. -/
theorem splitLines_joinLines : ∀ (ls : List PyStr), ls ≠ [] → (∀ l ∈ ls, '\n' ∉ l) →
    splitLines (joinLines ls) = ls := by
  intro ls
  induction ls with
  | nil => intro h _; exact absurd rfl h
  | cons l ls2 ih =>
    intro _ h
    cases ls2 with
    | nil => exact splitLines_no_newline l (h l (by simp))
    | cons l2 ls3 =>
      have hj : joinLines (l :: l2 :: ls3) = l ++ '\n' :: joinLines (l2 :: ls3) := rfl
      rw [hj, splitLines_append_newline l _ (h l (by simp)),
        ih (by simp) (fun x hx => h x (by simp [hx]))]

/-- One step of the loop on a line while a chapter is open and the line does
not match the chapter pattern (story_formatter.py lines 54-57 and 71-75): the
first heading line of the whole text is consumed as the book title; blank lines
are skipped while the chapter buffer is empty; every other line is appended
verbatim.  The state is the chapter buffer paired with the book-title-seen
flag. -/
def chapterStep (s : List PyStr × Bool) (line : PyStr) : List PyStr × Bool :=
  let stripped := pyStrip line
  if !s.2 && startsWithB (str "#") stripped then (s.1, true)
  else if s.1.isEmpty && stripped.isEmpty then s
  else (s.1 ++ [line], s.2)

/-- One step of the loop on a line before any chapter marker that does not
match the chapter pattern (story_formatter.py lines 54-57 and 76-79): the
first heading line is consumed as the book title; otherwise only lines passing
the pre-chapter filter are accumulated. -/
def preStep (s : List PyStr × Bool) (line : PyStr) : List PyStr × Bool :=
  let stripped := pyStrip line
  if !s.2 && startsWithB (str "#") stripped then (s.1, true)
  else if preChapterKeep line then (s.1 ++ [line], s.2)
  else s

/-- Before the first marker, a run of non-marker lines only updates the
accumulated content and the book-title flag, exactly as the `preStep` fold. -/
theorem dcLoop_front :
    ∀ (front : List PyStr), (∀ l ∈ front, matchChapterLine (pyStrip l) = false) →
    ∀ (rest content : List PyStr) (seen : Bool) (acc : List (PyStr × PyStr)),
    dcLoop (front ++ rest) none content seen acc =
      dcLoop rest none (List.foldl preStep (content, seen) front).1
        (List.foldl preStep (content, seen) front).2 acc := by
  intro front
  induction front with
  | nil => intro _ rest content seen acc; rfl
  | cons line fr ih =>
    intro h rest content seen acc
    have hline : matchChapterLine (pyStrip line) = false := h line (by simp)
    have hfr : ∀ l ∈ fr, matchChapterLine (pyStrip l) = false :=
      fun l hl => h l (by simp [hl])
    rw [List.foldl_cons]
    by_cases hhash : (!seen && startsWithB (str "#") (pyStrip line)) = true
    · have hstep : dcLoop ((line :: fr) ++ rest) none content seen acc
          = dcLoop (fr ++ rest) none content true acc := by
        simp only [List.cons_append, dcLoop, hhash, if_true, List.append_eq]
      have hps : preStep (content, seen) line = (content, true) := by
        simp only [preStep, hhash, if_true]
      rw [hstep, ih hfr, hps]
    · have hhash2 : (!seen && startsWithB (str "#") (pyStrip line)) = false := by
        cases hx : (!seen && startsWithB (str "#") (pyStrip line))
        · rfl
        · exact absurd hx hhash
      by_cases hkeep : preChapterKeep line = true
      · have hstep : dcLoop ((line :: fr) ++ rest) none content seen acc
            = dcLoop (fr ++ rest) none (content ++ [line]) seen acc := by
          simp only [List.cons_append, dcLoop, hhash2, Bool.false_eq_true, if_false,
            hline, hkeep, if_true, List.append_eq]
        have hps : preStep (content, seen) line = (content ++ [line], seen) := by
          simp only [preStep, hhash2, Bool.false_eq_true, if_false, hkeep, if_true]
        rw [hstep, ih hfr, hps]
      · have hkeep2 : preChapterKeep line = false := by
          cases hx : preChapterKeep line
          · rfl
          · exact absurd hx hkeep
        have hstep : dcLoop ((line :: fr) ++ rest) none content seen acc
            = dcLoop (fr ++ rest) none content seen acc := by
          simp only [List.cons_append, dcLoop, hhash2, Bool.false_eq_true, if_false,
            hline, hkeep2, List.append_eq]
        have hps : preStep (content, seen) line = (content, seen) := by
          simp only [preStep, hhash2, Bool.false_eq_true, if_false, hkeep2]
        rw [hstep, ih hfr, hps]

/-- While a chapter is open, a run of non-marker lines updates the chapter
buffer and the book-title flag exactly as the `chapterStep` fold. -/
theorem dcLoop_chapter (t : PyStr) :
    ∀ (b : List PyStr), (∀ l ∈ b, matchChapterLine (pyStrip l) = false) →
    ∀ (rest content : List PyStr) (seen : Bool) (acc : List (PyStr × PyStr)),
    dcLoop (b ++ rest) (some t) content seen acc =
      dcLoop rest (some t) (List.foldl chapterStep (content, seen) b).1
        (List.foldl chapterStep (content, seen) b).2 acc := by
  intro b
  induction b with
  | nil => intro _ rest content seen acc; rfl
  | cons line b2 ih =>
    intro h rest content seen acc
    have hline : matchChapterLine (pyStrip line) = false := h line (by simp)
    have hb2 : ∀ l ∈ b2, matchChapterLine (pyStrip l) = false :=
      fun l hl => h l (by simp [hl])
    rw [List.foldl_cons]
    by_cases hhash : (!seen && startsWithB (str "#") (pyStrip line)) = true
    · have hstep : dcLoop ((line :: b2) ++ rest) (some t) content seen acc
          = dcLoop (b2 ++ rest) (some t) content true acc := by
        simp only [List.cons_append, dcLoop, hhash, if_true, List.append_eq]
      have hcs : chapterStep (content, seen) line = (content, true) := by
        simp only [chapterStep, hhash, if_true]
      rw [hstep, ih hb2, hcs]
    · have hhash2 : (!seen && startsWithB (str "#") (pyStrip line)) = false := by
        cases hx : (!seen && startsWithB (str "#") (pyStrip line))
        · rfl
        · exact absurd hx hhash
      by_cases hblank : (content.isEmpty && (pyStrip line).isEmpty) = true
      · have hstep : dcLoop ((line :: b2) ++ rest) (some t) content seen acc
            = dcLoop (b2 ++ rest) (some t) content seen acc := by
          simp only [List.cons_append, dcLoop, hhash2, Bool.false_eq_true, if_false,
            hline, hblank, if_true, List.append_eq]
        have hcs : chapterStep (content, seen) line = (content, seen) := by
          simp only [chapterStep, hhash2, Bool.false_eq_true, if_false, hblank, if_true]
        rw [hstep, ih hb2, hcs]
      · have hblank2 : (content.isEmpty && (pyStrip line).isEmpty) = false := by
          cases hx : (content.isEmpty && (pyStrip line).isEmpty)
          · rfl
          · exact absurd hx hblank
        have hstep : dcLoop ((line :: b2) ++ rest) (some t) content seen acc
            = dcLoop (b2 ++ rest) (some t) (content ++ [line]) seen acc := by
          simp only [List.cons_append, dcLoop, hhash2, Bool.false_eq_true, if_false,
            hline, hblank2, List.append_eq]
        have hcs : chapterStep (content, seen) line = (content ++ [line], seen) := by
          simp only [chapterStep, hhash2, Bool.false_eq_true, if_false, hblank2]
        rw [hstep, ih hb2, hcs]

/-- The `chapterStep` fold only ever appends (a selection of) the processed
lines to the buffer: the added lines form a sublist of the input run, so a
chapter's content is built solely from that chapter's own body lines. -/
theorem chapterStep_foldl_sublist :
    ∀ (b content : List PyStr) (seen : Bool),
      ∃ e : List PyStr, List.Sublist e b ∧
        (List.foldl chapterStep (content, seen) b).1 = content ++ e := by
  intro b
  induction b with
  | nil =>
    intro content seen
    exact ⟨[], List.Sublist.refl [], by simp⟩
  | cons line b2 ih =>
    intro content seen
    rw [List.foldl_cons]
    by_cases hhash : (!seen && startsWithB (str "#") (pyStrip line)) = true
    · have hcs : chapterStep (content, seen) line = (content, true) := by
        simp only [chapterStep, hhash, if_true]
      rw [hcs]
      obtain ⟨e, he, heq⟩ := ih content true
      exact ⟨e, he.cons line, heq⟩
    · have hhash2 : (!seen && startsWithB (str "#") (pyStrip line)) = false := by
        cases hx : (!seen && startsWithB (str "#") (pyStrip line))
        · rfl
        · exact absurd hx hhash
      by_cases hblank : (content.isEmpty && (pyStrip line).isEmpty) = true
      · have hcs : chapterStep (content, seen) line = (content, seen) := by
          simp only [chapterStep, hhash2, Bool.false_eq_true, if_false, hblank, if_true]
        rw [hcs]
        obtain ⟨e, he, heq⟩ := ih content seen
        exact ⟨e, he.cons line, heq⟩
      · have hblank2 : (content.isEmpty && (pyStrip line).isEmpty) = false := by
          cases hx : (content.isEmpty && (pyStrip line).isEmpty)
          · rfl
          · exact absurd hx hblank
        have hcs : chapterStep (content, seen) line = (content ++ [line], seen) := by
          simp only [chapterStep, hhash2, Bool.false_eq_true, if_false, hblank2]
        rw [hcs]
        obtain ⟨e, he, heq⟩ := ih (content ++ [line]) seen
        refine ⟨line :: e, he.cons₂ line, ?_⟩
        rw [heq, List.append_assoc]
        rfl

/-- C7: for every input text whose chapter-marker lines are exactly
"Chapter 1: A", "Chapter 2: B", "Chapter 3: C" in that order — arbitrary
non-matching front-matter lines before the first marker and arbitrary
non-matching body lines in between, headings included — `detect_chapters`
returns exactly three pairs in order; each title equals its marker line
(heading symbols stripped, a no-op since the markers carry none), and each
chapter's content is a selection (sublist) of that chapter's own body lines,
so it contains no other chapter's text. -/
theorem detect_three_marked_chapters (front b1 b2 b3 : List PyStr)
    (hf : ∀ l ∈ front, matchChapterLine (pyStrip l) = false ∧ '\n' ∉ l)
    (h1 : ∀ l ∈ b1, matchChapterLine (pyStrip l) = false ∧ '\n' ∉ l)
    (h2 : ∀ l ∈ b2, matchChapterLine (pyStrip l) = false ∧ '\n' ∉ l)
    (h3 : ∀ l ∈ b3, matchChapterLine (pyStrip l) = false ∧ '\n' ∉ l) :
    ∃ c1 c2 c3 : List PyStr,
      List.Sublist c1 b1 ∧ List.Sublist c2 b2 ∧ List.Sublist c3 b3 ∧
      detectChapters (joinLines (front ++ str "Chapter 1: A" ::
          (b1 ++ str "Chapter 2: B" :: (b2 ++ str "Chapter 3: C" :: b3)))) =
        [(str "Chapter 1: A", joinLines c1),
         (str "Chapter 2: B", joinLines c2),
         (str "Chapter 3: C", joinLines c3)] := by
  have hnl : ∀ l ∈ front ++ str "Chapter 1: A" ::
      (b1 ++ str "Chapter 2: B" :: (b2 ++ str "Chapter 3: C" :: b3)), '\n' ∉ l := by
    intro l hl
    simp only [List.mem_append, List.mem_cons] at hl
    rcases hl with hb | rfl | hb | rfl | hb | rfl | hb
    · exact (hf l hb).2
    · decide
    · exact (h1 l hb).2
    · decide
    · exact (h2 l hb).2
    · decide
    · exact (h3 l hb).2
  obtain ⟨e1, hsub1, heq1⟩ := chapterStep_foldl_sublist b1 []
    (List.foldl preStep ([], false) front).2
  rw [List.nil_append] at heq1
  obtain ⟨e2, hsub2, heq2⟩ := chapterStep_foldl_sublist b2 []
    (List.foldl chapterStep ([], (List.foldl preStep ([], false) front).2) b1).2
  rw [List.nil_append] at heq2
  obtain ⟨e3, hsub3, heq3⟩ := chapterStep_foldl_sublist b3 []
    (List.foldl chapterStep ([],
      (List.foldl chapterStep ([], (List.foldl preStep ([], false) front).2) b1).2) b2).2
  rw [List.nil_append] at heq3
  refine ⟨e1, e2, e3, hsub1, hsub2, hsub3, ?_⟩
  rw [detectChapters, splitLines_joinLines _ (by simp) hnl,
    dcLoop_front front (fun l hl => (hf l hl).1) _ [] false []]
  have hh1 : startsWithB (str "#") (pyStrip (str "Chapter 1: A")) = false := by decide
  have hs1 : (!(List.foldl preStep ([], false) front).2
      && startsWithB (str "#") (pyStrip (str "Chapter 1: A"))) = false := by
    rw [hh1]; exact Bool.and_false _
  have hm1 : matchChapterLine (pyStrip (str "Chapter 1: A")) = true := by decide
  have ht1 : pyStrip ((pyStrip (str "Chapter 1: A")).dropWhile (fun c => c = '#'))
      = str "Chapter 1: A" := by decide
  simp only [dcLoop, hs1, Bool.false_eq_true, if_false, hm1, if_true, ht1]
  rw [dcLoop_chapter (str "Chapter 1: A") b1 (fun l hl => (h1 l hl).1) _ []
    (List.foldl preStep ([], false) front).2 []]
  have hh2 : startsWithB (str "#") (pyStrip (str "Chapter 2: B")) = false := by decide
  have hs2 : (!(List.foldl chapterStep ([],
        (List.foldl preStep ([], false) front).2) b1).2
      && startsWithB (str "#") (pyStrip (str "Chapter 2: B"))) = false := by
    rw [hh2]; exact Bool.and_false _
  have hm2 : matchChapterLine (pyStrip (str "Chapter 2: B")) = true := by decide
  have ht2 : pyStrip ((pyStrip (str "Chapter 2: B")).dropWhile (fun c => c = '#'))
      = str "Chapter 2: B" := by decide
  simp only [dcLoop, hs2, Bool.false_eq_true, if_false, hm2, if_true, ht2, heq1,
    List.nil_append]
  rw [dcLoop_chapter (str "Chapter 2: B") b2 (fun l hl => (h2 l hl).1) _ []
    (List.foldl chapterStep ([], (List.foldl preStep ([], false) front).2) b1).2
    [(str "Chapter 1: A", joinLines e1)]]
  have hh3 : startsWithB (str "#") (pyStrip (str "Chapter 3: C")) = false := by decide
  have hs3 : (!(List.foldl chapterStep ([],
        (List.foldl chapterStep ([],
          (List.foldl preStep ([], false) front).2) b1).2) b2).2
      && startsWithB (str "#") (pyStrip (str "Chapter 3: C"))) = false := by
    rw [hh3]; exact Bool.and_false _
  have hm3 : matchChapterLine (pyStrip (str "Chapter 3: C")) = true := by decide
  have ht3 : pyStrip ((pyStrip (str "Chapter 3: C")).dropWhile (fun c => c = '#'))
      = str "Chapter 3: C" := by decide
  simp only [dcLoop, hs3, Bool.false_eq_true, if_false, hm3, if_true, ht3, heq2]
  conv_lhs => rw [show b3 = b3 ++ [] from (List.append_nil b3).symm]
  rw [dcLoop_chapter (str "Chapter 3: C") b3 (fun l hl => (h3 l hl).1) [] []
    (List.foldl chapterStep ([],
      (List.foldl chapterStep ([],
        (List.foldl preStep ([], false) front).2) b1).2) b2).2
    ([(str "Chapter 1: A", joinLines e1)] ++ [(str "Chapter 2: B", joinLines e2)])]
  simp [dcLoop, heq3]

/-- Witness for `detect_three_marked_chapters`: a book-title heading and an
intro line before the first marker, a leading blank line and a `###` heading
among the body lines. -/
theorem detect_three_marked_chapters_witness :
    ∃ c1 c2 c3 : List PyStr,
      List.Sublist c1 [str "", str "hello", str "### scene break"] ∧
      List.Sublist c2 ([] : List PyStr) ∧
      List.Sublist c3 [str "world"] ∧
      detectChapters (joinLines ([str "# My Book", str "intro"] ++ str "Chapter 1: A" ::
          ([str "", str "hello", str "### scene break"] ++ str "Chapter 2: B" ::
            (([] : List PyStr) ++ str "Chapter 3: C" :: [str "world"])))) =
        [(str "Chapter 1: A", joinLines c1),
         (str "Chapter 2: B", joinLines c2),
         (str "Chapter 3: C", joinLines c3)] :=
  detect_three_marked_chapters [str "# My Book", str "intro"]
    [str "", str "hello", str "### scene break"] [] [str "world"]
    (by decide) (by decide) (by decide) (by decide)

/-! ## StoryHTMLFormatter.process_image_markup
`src/producer/fable_flow/story_formatter.py`, lines 214-254, together with the
decimal rendering/parsing used by the f-string and `int()`. -/

/-- The decimal digit character for a value below ten. -/
def digitChar (d : Nat) : Char := Char.ofNat (48 + d)

/-- Decimal digit expansion, most significant first, with a fuel bound (the
number itself is always enough fuel). -/
def natDigitsGo : Nat → Nat → PyStr
  | 0, n => [digitChar (n % 10)]
  | fuel + 1, n =>
    if n < 10 then [digitChar n]
    else natDigitsGo fuel (n / 10) ++ [digitChar (n % 10)]

/-- Python `str(n)` for a nonnegative integer. -/
def natDigits (n : Nat) : PyStr := natDigitsGo n n

/-- Python `int(s)` for a digit string (base ten, leading zeros allowed). -/
def parseDigits (ds : PyStr) : Nat :=
  ds.foldl (fun a c => a * 10 + (c.toNat - 48)) 0

/-- Python `str(i)` for an arbitrary integer. -/
def intToStr (i : Int) : PyStr :=
  if i < 0 then '-' :: natDigits i.natAbs else natDigits i.toNat

/-- The digit character of a value below ten parses back to that value. -/
theorem digitChar_toNat (d : Nat) (hd : d < 10) : (digitChar d).toNat - 48 = d := by
  interval_cases d <;> decide

/-- Folding the digit parser over `natDigitsGo` recovers the number (shifted by
the accumulated prefix). -/
theorem parseDigits_natDigitsGo :
    ∀ (fuel n a : Nat), n ≤ fuel →
      List.foldl (fun a c => a * 10 + (c.toNat - 48)) a (natDigitsGo fuel n)
        = a * 10 ^ (natDigitsGo fuel n).length + n := by
  intro fuel
  induction fuel with
  | zero =>
    intro n a h
    have hn : n = 0 := by omega
    subst hn
    simp [natDigitsGo, digitChar]
  | succ fuel ih =>
    intro n a h
    by_cases hlt : n < 10
    · simp only [natDigitsGo, if_pos hlt]
      simp only [List.foldl_cons, List.foldl_nil, List.length_cons, List.length_nil]
      rw [digitChar_toNat n hlt]
      ring
    · simp only [natDigitsGo, if_neg hlt]
      have hdiv : n / 10 ≤ fuel := by omega
      rw [List.foldl_append, ih (n / 10) a hdiv]
      simp only [List.foldl_cons, List.foldl_nil, List.length_append, List.length_cons,
        List.length_nil]
      rw [digitChar_toNat (n % 10) (by omega)]
      have hmod : n / 10 * 10 + n % 10 = n := by omega
      rw [pow_add]
      ring_nf
      omega

/-- `int(str(n)) = n`. -/
theorem parseDigits_natDigits (n : Nat) : parseDigits (natDigits n) = n := by
  have h := parseDigits_natDigitsGo n n 0 (Nat.le_refl n)
  simpa [parseDigits, natDigits] using h

/-- Decimal rendering is injective (used for bookmark-id uniqueness). -/
theorem natDigits_injective : Function.Injective natDigits := by
  intro m n h
  have hm := parseDigits_natDigits m
  have hn := parseDigits_natDigits n
  rw [← hm, ← hn, h]

/-- Character-level facts about decimal digit characters. -/
theorem digitChar_props (d : Nat) (hd : d < 10) :
    (digitChar d).isDigit = true ∧ isPyWs (digitChar d) = false ∧ ¬digitChar d = '['
      ∧ ¬digitChar d = ']' ∧ ¬digitChar d = '\n' := by
  interval_cases d <;> exact ⟨by decide, by decide, by decide, by decide, by decide⟩

/-- Every character of a decimal rendering is a digit (and in particular is not
whitespace, a bracket, or a newline). -/
theorem natDigitsGo_mem_props :
    ∀ (fuel n : Nat) (c : Char), c ∈ natDigitsGo fuel n →
      c.isDigit = true ∧ isPyWs c = false ∧ ¬c = '[' ∧ ¬c = ']' ∧ ¬c = '\n' := by
  intro fuel
  induction fuel with
  | zero =>
    intro n c hc
    simp only [natDigitsGo, List.mem_singleton] at hc
    subst hc
    exact digitChar_props (n % 10) (by omega)
  | succ fuel ih =>
    intro n c hc
    by_cases hlt : n < 10
    · simp only [natDigitsGo, if_pos hlt, List.mem_singleton] at hc
      subst hc
      exact digitChar_props n hlt
    · simp only [natDigitsGo, if_neg hlt, List.mem_append, List.mem_singleton] at hc
      rcases hc with hc | hc
      · exact ih (n / 10) c hc
      · subst hc
        exact digitChar_props (n % 10) (by omega)

/-- A decimal rendering is never empty. -/
theorem natDigitsGo_ne_nil (fuel n : Nat) : natDigitsGo fuel n ≠ [] := by
  cases fuel with
  | zero => simp [natDigitsGo]
  | succ fuel =>
    by_cases hlt : n < 10
    · simp [natDigitsGo, hlt]
    · simp [natDigitsGo, hlt]

/-- `takeWhile` stops exactly at the first failing element after a satisfying
run. -/
theorem takeWhile_append_stop (p : Char → Bool) :
    ∀ (xs : PyStr) (y : Char) (ys : PyStr), (∀ x ∈ xs, p x = true) → p y = false →
      (xs ++ y :: ys).takeWhile p = xs := by
  intro xs
  induction xs with
  | nil =>
    intro y ys _ hy
    simp [List.takeWhile_cons, hy]
  | cons x xs ih =>
    intro y ys hall hy
    have hx : p x = true := hall x (by simp)
    simp only [List.cons_append, List.takeWhile_cons, hx, if_true]
    rw [ih y ys (fun a ha => hall a (by simp [ha])) hy]

/-- `dropWhile` companion to `takeWhile_append_stop`. -/
theorem dropWhile_append_stop (p : Char → Bool) :
    ∀ (xs : PyStr) (y : Char) (ys : PyStr), (∀ x ∈ xs, p x = true) → p y = false →
      (xs ++ y :: ys).dropWhile p = y :: ys := by
  intro xs
  induction xs with
  | nil =>
    intro y ys _ hy
    simp [List.dropWhile_cons, hy]
  | cons x xs ih =>
    intro y ys hall hy
    have hx : p x = true := hall x (by simp)
    simp only [List.cons_append, List.dropWhile_cons, hx, if_true]
    exact ih y ys (fun a ha => hall a (by simp [ha])) hy

/-- Match and remove a literal prefix, returning the remainder (regex literal
matching). -/
def dropStart? : PyStr → PyStr → Option PyStr
  | [], s => some s
  | _ :: _, [] => none
  | p :: ps, c :: cs => if p = c then dropStart? ps cs else none

/-- Dropping a literal prefix from a string that carries it. -/
theorem dropStart?_append : ∀ (p s : PyStr), dropStart? p (p ++ s) = some s := by
  intro p
  induction p with
  | nil => intro s; rfl
  | cons c p ih =>
    intro s
    simp only [List.cons_append, dropStart?, if_pos rfl]
    exact ih s

/-- A string starts with itself followed by anything. -/
theorem startsWithB_append_self : ∀ (n t : PyStr), startsWithB n (n ++ t) = true := by
  intro n
  induction n with
  | nil => intro t; rfl
  | cons c n ih =>
    intro t
    simp only [List.cons_append, startsWithB, beq_self_eq_true, Bool.true_and]
    exact ih t

/-- A string contains itself as a leading substring. -/
theorem containsB_self_append : ∀ (n t : PyStr), containsB n (n ++ t) = true := by
  intro n t
  cases hn : n with
  | nil =>
    cases t with
    | nil => rfl
    | cons c r => simp [containsB, startsWithB]
  | cons c r =>
    simp only [List.cons_append, containsB, Bool.or_eq_true]
    left
    have := startsWithB_append_self (c :: r) t
    simpa using this

/-- Containment is preserved by prepending arbitrary text. -/
theorem containsB_append_left :
    ∀ (p n t : PyStr), containsB n t = true → containsB n (p ++ t) = true := by
  intro p
  induction p with
  | nil => intro n t h; simpa using h
  | cons c p ih =>
    intro n t h
    simp only [List.cons_append, containsB, Bool.or_eq_true]
    right
    exact ih n t h

/-- Attempt to match the image-markup regex
`<image>\s*(\d+)\s*\[([^\]]+)\]</image>` (story_formatter.py line 227) at the
start of the string, returning the digit group, the description group, and the
remainder after the match.  The regex is deterministic here: `\s*` and `\d+`
are maximal-munch (no following element can consume their characters) and
`[^\]]+` runs exactly to the first `]`. -/
def tryImageTag (s : PyStr) : Option (PyStr × PyStr × PyStr) :=
  match dropStart? (str "<image>") s with
  | none => none
  | some r1 =>
    let r2 := r1.dropWhile isPyWs
    let digits := r2.takeWhile Char.isDigit
    if digits.isEmpty then none
    else
      match (r2.dropWhile Char.isDigit).dropWhile isPyWs with
      | [] => none
      | c :: r5 =>
        if c = '[' then
          let desc := r5.takeWhile (fun x => !(x = ']' : Bool))
          if desc.isEmpty then none
          else
            match dropStart? (str "]</image>") (r5.dropWhile (fun x => !(x = ']' : Bool))) with
            | none => none
            | some r6 => some (digits, desc, r6)
        else none

/-- The `replace_image` substitution (story_formatter.py lines 229-251):
`int` the 1-based digit group, strip the description, subtract one (Python
integer arithmetic, hence `Int`), and build the placeholder-wrapped HTML block
with the 0-based `image_{N-1}.png` filename. -/
def imageReplacement (digits desc : PyStr) : PyStr :=
  let markupNumber := parseDigits digits
  let description := pyStrip desc
  let fileNumber : Int := (markupNumber : Int) - 1
  str "IMAGE_PLACEHOLDER_START\n<div class=\"image-full-page\">\n    <img src=\"image_"
    ++ intToStr fileNumber ++ str ".png\" alt=\"" ++ description
    ++ str "\">\n    <div class=\"caption\">" ++ description
    ++ str "</div>\n</div>\nIMAGE_PLACEHOLDER_END"

/-- The `re.sub` scan of `process_image_markup` (story_formatter.py line 253):
at each position try the pattern; on a match emit the replacement and continue
after it, otherwise keep the character and move on.  Fuel-bounded (one unit per
position; a match always consumes at least one character). -/
def processImageMarkupGo : Nat → PyStr → PyStr
  | _, [] => []
  | 0, s => s
  | fuel + 1, c :: rest =>
    match tryImageTag (c :: rest) with
    | some (digits, desc, after) =>
      imageReplacement digits desc ++ processImageMarkupGo fuel after
    | none => c :: processImageMarkupGo fuel rest

/-- `process_image_markup` (story_formatter.py lines 214-254). -/
def processImageMarkup (s : PyStr) : PyStr := processImageMarkupGo s.length s

/-- If the whole input is a single image tag, the scan yields exactly its
replacement. -/
theorem processImageMarkup_single_tag (s digits desc : PyStr)
    (h : tryImageTag s = some (digits, desc, [])) (hne : s ≠ []) :
    processImageMarkup s = imageReplacement digits desc := by
  obtain ⟨c, rest, rfl⟩ := List.exists_cons_of_ne_nil hne
  simp only [processImageMarkup, List.length_cons, processImageMarkupGo, h]
  cases rest with
  | nil => simp [processImageMarkupGo]
  | cons d tail => simp [processImageMarkupGo]

/-- An image-markup tag in the documented format (story_formatter.py lines
216-217, "tag N [description]"): `<image>N [description]</image>` with the
1-based number rendered in decimal. -/
def mkImageTag (n : Nat) (desc : PyStr) : PyStr :=
  str "<image>" ++ natDigits n ++ str " [" ++ desc ++ str "]</image>"

/-- The expected substitution result, written with the 0-based index
explicitly, for comparison with `imageReplacement`. -/
def imageHtmlExpected (k : Nat) (d : PyStr) : PyStr :=
  str "IMAGE_PLACEHOLDER_START\n<div class=\"image-full-page\">\n    <img src=\"image_"
    ++ natDigits k ++ str ".png\" alt=\"" ++ d ++ str "\">\n    <div class=\"caption\">"
    ++ d ++ str "</div>\n</div>\nIMAGE_PLACEHOLDER_END"

/-- The regex matches a well-formed image tag, extracting its digit and
description groups and consuming the whole tag. -/
theorem tryImageTag_mkImageTag (n : Nat) (desc : PyStr)
    (hd : ¬desc.isEmpty = true) (hnb : ']' ∉ desc) :
    tryImageTag (mkImageTag n desc) = some (natDigits n, desc, []) := by
  obtain ⟨d0, ds, hds⟩ := List.exists_cons_of_ne_nil (natDigitsGo_ne_nil n n)
  have hnd : natDigits n = d0 :: ds := hds
  have hdig : ∀ c ∈ natDigits n, c.isDigit = true :=
    fun c hc => (natDigitsGo_mem_props n n c hc).1
  have hprops := natDigitsGo_mem_props n n d0 (by simp [natDigits, hds])
  have hX : mkImageTag n desc
      = str "<image>" ++ (natDigits n ++ ' ' :: '[' ::
          (desc ++ ']' :: str "</image>")) := by
    simp only [mkImageTag, List.append_assoc]
    rfl
  rw [hX]
  simp only [tryImageTag, dropStart?_append]
  have hdw : (natDigits n ++ ' ' :: '[' :: (desc ++ ']' :: str "</image>")).dropWhile isPyWs
      = natDigits n ++ ' ' :: '[' :: (desc ++ ']' :: str "</image>") := by
    rw [hnd, List.cons_append, List.dropWhile_cons]
    simp [hprops.2.1]
  rw [hdw]
  have htw : (natDigits n ++ ' ' :: '[' :: (desc ++ ']' :: str "</image>")).takeWhile
      Char.isDigit = natDigits n :=
    takeWhile_append_stop Char.isDigit (natDigits n) ' ' _ hdig (by decide)
  have hdw2 : (natDigits n ++ ' ' :: '[' :: (desc ++ ']' :: str "</image>")).dropWhile
      Char.isDigit = ' ' :: '[' :: (desc ++ ']' :: str "</image>") :=
    dropWhile_append_stop Char.isDigit (natDigits n) ' ' _ hdig (by decide)
  rw [htw, hdw2]
  have hnonempty : (natDigits n).isEmpty = false := by
    rw [hnd]
    rfl
  rw [if_neg (by simp [hnonempty])]
  have hdw3 : (' ' :: '[' :: (desc ++ ']' :: str "</image>")).dropWhile isPyWs
      = '[' :: (desc ++ ']' :: str "</image>") := by
    rw [List.dropWhile_cons]
    simp only [show isPyWs ' ' = true from rfl, if_true]
    rw [List.dropWhile_cons]
    simp [show isPyWs '[' = false from rfl]
  rw [hdw3]
  have hdesc : ∀ x ∈ desc, (!(x = ']' : Bool)) = true := by
    intro x hx
    have hxx : ¬x = ']' := fun hh => hnb (hh ▸ hx)
    simp [hxx]
  have htw4 : (desc ++ ']' :: str "</image>").takeWhile (fun x => !(x = ']' : Bool))
      = desc :=
    takeWhile_append_stop _ desc ']' _ hdesc (by decide)
  have hdw4 : (desc ++ ']' :: str "</image>").dropWhile (fun x => !(x = ']' : Bool))
      = ']' :: str "</image>" :=
    dropWhile_append_stop _ desc ']' _ hdesc (by decide)
  dsimp only
  rw [if_pos (rfl : ('[' : Char) = '[')]
  rw [htw4, hdw4]
  rw [if_neg (by simp [hd] : ¬desc.isEmpty = true)]
  have hfin : (']' :: str "</image>") = str "]</image>" ++ [] := by decide
  rw [hfin, dropStart?_append]

/-- C9: `process_image_markup` converts an image tag carrying the 1-based
number `N` (with a nonempty bracket-free description) into the HTML block whose
`img src` is the 0-based filename `image_{N-1}.png`; the second conjunct makes
the filename reference explicit. -/
theorem image_tag_resolves_zero_based (n : Nat) (desc : PyStr) (hn : 0 < n)
    (hd : ¬desc.isEmpty = true) (hnb : ']' ∉ desc) :
    processImageMarkup (mkImageTag n desc) = imageHtmlExpected (n - 1) (pyStrip desc)
    ∧ containsB (str "image_" ++ natDigits (n - 1) ++ str ".png")
        (processImageMarkup (mkImageTag n desc)) = true := by
  have htag := tryImageTag_mkImageTag n desc hd hnb
  have hne : mkImageTag n desc ≠ [] := by
    intro hnil
    have hlen := congrArg List.length hnil
    have h7 : (str "<image>").length = 7 := by decide
    simp [mkImageTag, List.length_append, h7] at hlen
  have hmain : processImageMarkup (mkImageTag n desc)
      = imageHtmlExpected (n - 1) (pyStrip desc) := by
    rw [processImageMarkup_single_tag _ _ _ htag hne]
    simp only [imageReplacement, imageHtmlExpected, parseDigits_natDigits]
    have hcast : ((n : Int) - 1) = ((n - 1 : Nat) : Int) := by omega
    rw [hcast]
    have h2 : intToStr ((n - 1 : Nat) : Int) = natDigits (n - 1) := by
      simp [intToStr]
    rw [h2]
  refine ⟨hmain, ?_⟩
  rw [hmain]
  have hA : str "IMAGE_PLACEHOLDER_START\n<div class=\"image-full-page\">\n    <img src=\"image_"
      = str "IMAGE_PLACEHOLDER_START\n<div class=\"image-full-page\">\n    <img src=\""
        ++ str "image_" := by decide
  have hB : str ".png\" alt=\"" = str ".png" ++ str "\" alt=\"" := by decide
  simp only [imageHtmlExpected]
  rw [hA, hB]
  simp only [List.append_assoc]
  apply containsB_append_left
  have hc := containsB_self_append (str "image_" ++ (natDigits (n - 1) ++ str ".png"))
    (str "\" alt=\"" ++ (pyStrip desc ++ (str "\">\n    <div class=\"caption\">"
      ++ (pyStrip desc ++ str "</div>\n</div>\nIMAGE_PLACEHOLDER_END"))))
  simpa [List.append_assoc] using hc

/-- Witness for `image_tag_resolves_zero_based`: tag number 5 resolves to
`image_4.png`. -/
theorem image_tag_resolves_zero_based_witness :
    processImageMarkup (mkImageTag 5 (str "desc"))
        = imageHtmlExpected 4 (pyStrip (str "desc"))
    ∧ containsB (str "image_" ++ natDigits 4 ++ str ".png")
        (processImageMarkup (mkImageTag 5 (str "desc"))) = true :=
  image_tag_resolves_zero_based 5 (str "desc") (by decide) (by decide) (by decide)

/-! ## PDFGenerator — bookmark pre-scan and two-pass build
`src/producer/fable_flow/pdf.py`.  The BeautifulSoup document is abstracted to
the data the pre-scan reads from it: the stripped text of every
`h2.chapter-title` in document order, and for each formal-section div (in the
fixed class order of lines 345-350) the stripped text of its first `h1`/`h2`
when present.  Rendered elements are abstracted to their `str(...)`
serializations, and a `doc.build` call to the page-number captures its
`BookmarkFlowable.draw` callbacks perform plus whether it raised. -/

/-- The bookmark-tracking state of `PDFGenerator` (pdf.py lines 120-126);
Python dicts are insertion-ordered association lists. -/
structure PdfGenState where
  chapterBookmarks : List (PyStr × PyStr)
  sectionBookmarks : List (PyStr × PyStr)
  bookmarkPages : List (PyStr × Nat)
  chapterCounter : Nat
  sectionCounter : Nat
deriving DecidableEq

/-- The reset at the start of `generate_pdf` (pdf.py lines 160-165): all five
tracking fields are cleared before the pre-scan, so a render never sees state
from a previous render. -/
def resetTracking (_s : PdfGenState) : PdfGenState := ⟨[], [], [], 0, 0⟩

/-- Ordered-dict key lookup (Python `in`/`get` on `dict`). -/
def lookupA (k : PyStr) : List (PyStr × PyStr) → Option PyStr
  | [] => none
  | (k2, v) :: rest => if k2 = k then some v else lookupA k rest

/-- Ordered-dict assignment `d[k] = v`: overwrite in place (keys keep their
insertion position) or append. -/
def setPage : List (PyStr × Nat) → PyStr × Nat → List (PyStr × Nat)
  | [], kv => [kv]
  | (k2, v2) :: rest, (k, v) =>
    if k2 = k then (k2, v) :: rest else (k2, v2) :: setPage rest (k, v)

/-- The document data consumed by the pre-scan. -/
structure PdfDocument where
  chapterTitles : List PyStr
  prefaceSections : List (Option PyStr)
  aboutAuthorSections : List (Option PyStr)
  acknowledgmentsSections : List (Option PyStr)
  indexSections : List (Option PyStr)

/-- One insertion step of `_prescan_chapters_and_sections`: skip empty titles
and titles already mapped, otherwise append `tag ++ counter` and bump the
counter.  The chapter loop (pdf.py lines 333-342) and the section loop (lines
352-365) share this shape with tags `"chapter_"` and `"section_"`. -/
def bookmarkStep (tag : PyStr) (st : List (PyStr × PyStr) × Nat) (t : PyStr) :
    List (PyStr × PyStr) × Nat :=
  if !t.isEmpty && (lookupA t st.1).isNone then
    (st.1 ++ [(t, tag ++ natDigits st.2)], st.2 + 1)
  else st

/-- Effective section titles in scan order (pdf.py lines 344-357): the four
class names in source order; each div contributes its own first `h1`/`h2`
stripped text when present, else the class default title. -/
def sectionTitles (doc : PdfDocument) : List PyStr :=
  doc.prefaceSections.map (fun o => o.getD (str "Preface"))
    ++ doc.aboutAuthorSections.map (fun o => o.getD (str "About the Author"))
    ++ doc.acknowledgmentsSections.map (fun o => o.getD (str "Acknowledgments"))
    ++ doc.indexSections.map (fun o => o.getD (str "Index"))

/-- `_prescan_chapters_and_sections` (pdf.py lines 319-365). -/
def prescanChaptersAndSections (st : PdfGenState) (doc : PdfDocument) : PdfGenState :=
  let c := doc.chapterTitles.foldl (bookmarkStep (str "chapter_"))
    (st.chapterBookmarks, st.chapterCounter)
  let s := (sectionTitles doc).foldl (bookmarkStep (str "section_"))
    (st.sectionBookmarks, st.sectionCounter)
  { st with chapterBookmarks := c.1, chapterCounter := c.2,
            sectionBookmarks := s.1, sectionCounter := s.2 }

/-- Observable behaviour of one `doc.build` call: the page-number writes that
`BookmarkFlowable.draw` performs into `_bookmark_pages` (pdf.py lines 57-67),
in draw order, and whether the build raised (abstract exception value). -/
structure BuildOutcome where
  captures : List (PyStr × Nat)
  raises : Option Nat
deriving DecidableEq

/-- A build only writes `_bookmark_pages` (`page_tracker[key] = page`, pdf.py
line 64); no code in the build phase writes `_chapter_bookmarks` or
`_section_bookmarks` (they are only read, lines 540, 672, 2161-2163, 2195,
2224, 2258). -/
def applyBuild (st : PdfGenState) (b : BuildOutcome) : PdfGenState :=
  { st with bookmarkPages := b.captures.foldl setPage st.bookmarkPages }

/-- The marker substring checked for the second pass. -/
def tocMarker : PyStr := str "table-of-contents"

/-- `has_toc = any("table-of-contents" in str(elem) for elem in all_elements[:5])`
(pdf.py line 291): only the first five elements are examined. -/
def hasTocInFirstFive (elements : List PyStr) : Bool :=
  (elements.take 5).any (fun e => containsB tocMarker e)

/-- Result of the build phase: final state, propagated exception, whether the
output file was deleted, and how many build passes ran. -/
structure BuildResult where
  state : PdfGenState
  raised : Option Nat
  fileDeleted : Bool
  passes : Nat
deriving DecidableEq

/-- The try/except build phase of `generate_pdf` (pdf.py lines 277-317):
pass 1 always builds (line 281); pass 2 builds only when `_bookmark_pages` is
nonempty (line 284) and a table-of-contents marker occurs among the first five
elements (line 291); an exception in either pass deletes the output file when
it exists (lines 313-314) and re-raises (line 317). -/
def generatePdfBuildPhase (st : PdfGenState) (elements : List PyStr)
    (pass1 pass2 : BuildOutcome) (outputExists : Bool) : BuildResult :=
  let st1 := applyBuild st pass1
  match pass1.raises with
  | some e => ⟨st1, some e, outputExists, 1⟩
  | none =>
    if !st1.bookmarkPages.isEmpty && hasTocInFirstFive elements then
      let st2 := applyBuild st1 pass2
      match pass2.raises with
      | some e => ⟨st2, some e, outputExists, 2⟩
      | none => ⟨st2, none, false, 2⟩
    else ⟨st1, none, false, 1⟩

/-- A six-element document whose table-of-contents element is sixth. -/
def c4Elements : List PyStr :=
  [ str "<div class=\"page-spread\">front cover</div>"
  , str "<div class=\"page-spread\">title page</div>"
  , str "<div class=\"page-spread\">publication info</div>"
  , str "<div class=\"page-spread\">preface</div>"
  , str "<div class=\"page-spread\">chapter one</div>"
  , str "<div class=\"table-of-contents\">contents</div>" ]

/-- C4 counterexample: the document contains a table-of-contents element (as
its sixth element) and pass 1 captured page numbers, yet only one build pass
runs, because `generate_pdf` checks only the first five elements for the
marker (pdf.py line 291). -/
theorem second_pass_skipped_when_toc_is_sixth :
    c4Elements.any (fun e => containsB tocMarker e) = true
    ∧ ((generatePdfBuildPhase (resetTracking ⟨[], [], [], 0, 0⟩) c4Elements
          ⟨[(str "chapter_0", 3)], none⟩ ⟨[], none⟩ false).state.bookmarkPages).isEmpty
        = false
    ∧ (generatePdfBuildPhase (resetTracking ⟨[], [], [], 0, 0⟩) c4Elements
          ⟨[(str "chapter_0", 3)], none⟩ ⟨[], none⟩ false).passes = 1 := by
  refine ⟨by decide, by decide, by decide⟩

/-- C4 amended: when pass 1 succeeds, pass 2 runs exactly when page numbers
were captured and a table-of-contents marker occurs among the first five
elements — not "anywhere in the document"; in particular, when no element
contains the marker at all, only pass 1 runs. -/
theorem second_pass_condition (st : PdfGenState) (elements : List PyStr)
    (p1 p2 : BuildOutcome) (ex : Bool) (h : p1.raises = none) :
    ((generatePdfBuildPhase st elements p1 p2 ex).passes = 2
      ↔ ((applyBuild st p1).bookmarkPages.isEmpty = false
          ∧ hasTocInFirstFive elements = true))
    ∧ ((∀ e ∈ elements, containsB tocMarker e = false) →
        (generatePdfBuildPhase st elements p1 p2 ex).passes = 1) := by
  constructor
  · simp only [generatePdfBuildPhase, h]
    by_cases hc : (!(applyBuild st p1).bookmarkPages.isEmpty
        && hasTocInFirstFive elements) = true
    · rw [if_pos hc]
      cases hp2 : p2.raises <;>
        simp_all
    · rw [if_neg hc]
      simp_all
  · intro hno
    have htoc : hasTocInFirstFive elements = false := by
      simp only [hasTocInFirstFive]
      rw [List.any_eq_false]
      intro e he
      simp [hno e (List.take_subset 5 elements he)]
    simp only [generatePdfBuildPhase, h, htoc, Bool.and_false, Bool.false_eq_true,
      if_false]

/-- Witness for `second_pass_condition`: a successful pass 1 with a captured
page and the marker in the first element makes pass 2 run; both conjuncts are
exercised through the theorem. -/
theorem second_pass_condition_witness :
    ((generatePdfBuildPhase (resetTracking ⟨[], [], [], 0, 0⟩)
        [str "<div class=\"table-of-contents\">contents</div>"]
        ⟨[(str "chapter_0", 3)], none⟩ ⟨[], none⟩ false).passes = 2
      ↔ (((applyBuild (resetTracking ⟨[], [], [], 0, 0⟩)
            ⟨[(str "chapter_0", 3)], none⟩).bookmarkPages).isEmpty = false
          ∧ hasTocInFirstFive [str "<div class=\"table-of-contents\">contents</div>"]
              = true)) :=
  (second_pass_condition (resetTracking ⟨[], [], [], 0, 0⟩)
    [str "<div class=\"table-of-contents\">contents</div>"]
    ⟨[(str "chapter_0", 3)], none⟩ ⟨[], none⟩ false (by decide)).1

/-- C8: if an exception is raised during either build pass of `generate_pdf`,
the partially-written output file is deleted exactly when it exists, and the
same exception is re-raised to the caller (it is the one the failing build
produced). -/
theorem render_failure_deletes_and_reraises (st : PdfGenState) (elements : List PyStr)
    (p1 p2 : BuildOutcome) (ex : Bool) (e : Nat)
    (h : (generatePdfBuildPhase st elements p1 p2 ex).raised = some e) :
    (p1.raises = some e ∨ p2.raises = some e)
    ∧ (generatePdfBuildPhase st elements p1 p2 ex).fileDeleted = ex := by
  cases hp1 : p1.raises with
  | some e1 =>
    have hred : generatePdfBuildPhase st elements p1 p2 ex
        = ⟨applyBuild st p1, some e1, ex, 1⟩ := by
      simp [generatePdfBuildPhase, hp1]
    rw [hred] at h
    have he : e1 = e := Option.some.inj h
    exact ⟨Or.inl (congrArg some he), by rw [hred]⟩
  | none =>
    by_cases hc : (!(applyBuild st p1).bookmarkPages.isEmpty
        && hasTocInFirstFive elements) = true
    · cases hp2 : p2.raises with
      | some e2 =>
        have hred : generatePdfBuildPhase st elements p1 p2 ex
            = ⟨applyBuild (applyBuild st p1) p2, some e2, ex, 2⟩ := by
          simp [generatePdfBuildPhase, hp1, hc, hp2]
        rw [hred] at h
        have he : e2 = e := Option.some.inj h
        exact ⟨Or.inr (congrArg some he), by rw [hred]⟩
      | none =>
        have hred : generatePdfBuildPhase st elements p1 p2 ex
            = ⟨applyBuild (applyBuild st p1) p2, none, false, 2⟩ := by
          simp [generatePdfBuildPhase, hp1, hc, hp2]
        rw [hred] at h
        simp at h
    · have hred : generatePdfBuildPhase st elements p1 p2 ex
          = ⟨applyBuild st p1, none, false, 1⟩ := by
        simp only [generatePdfBuildPhase, hp1, if_neg hc]
      rw [hred] at h
      simp at h

/-- Witness for `render_failure_deletes_and_reraises`: pass 1 raises exception
`7` while the output file exists; the file is deleted and `7` propagates. -/
theorem render_failure_deletes_and_reraises_witness :
    ((⟨[], none⟩ : BuildOutcome).raises = some 7
        ∨ (⟨[], none⟩ : BuildOutcome).raises = some 7)
      ∨ ((generatePdfBuildPhase (resetTracking ⟨[], [], [], 0, 0⟩) []
            ⟨[], some 7⟩ ⟨[], none⟩ true).fileDeleted = true
          ∧ ((⟨[], some 7⟩ : BuildOutcome).raises = some 7
              ∨ (⟨[], none⟩ : BuildOutcome).raises = some 7)) :=
  Or.inr ⟨(render_failure_deletes_and_reraises (resetTracking ⟨[], [], [], 0, 0⟩) []
      ⟨[], some 7⟩ ⟨[], none⟩ true 7 (by decide)).2,
    (render_failure_deletes_and_reraises (resetTracking ⟨[], [], [], 0, 0⟩) []
      ⟨[], some 7⟩ ⟨[], none⟩ true 7 (by decide)).1⟩

/-- Bookmark ids `tag ++ i` are pairwise distinct across distinct counters. -/
theorem bookmarkId_injective (tag : PyStr) :
    Function.Injective (fun i => tag ++ natDigits i) := by
  intro i j h
  simp only at h
  exact natDigits_injective (List.append_cancel_left h)

/-- Fold invariant for the pre-scan insertion loops: starting from a map whose
ids are exactly `tag ++ 0 … tag ++ (k-1)` in order, the fold extends it so the
ids are exactly `tag ++ 0 … tag ++ (k'-1)` in order — sequential assignment in
scan order. -/
theorem bookmarkStep_foldl_spec (tag : PyStr) :
    ∀ (titles : List PyStr) (bk : List (PyStr × PyStr)) (k : Nat),
      bk.map Prod.snd = (List.range k).map (fun i => tag ++ natDigits i) →
      bk.length = k →
      ((titles.foldl (bookmarkStep tag) (bk, k)).1.map Prod.snd
          = (List.range (titles.foldl (bookmarkStep tag) (bk, k)).2).map
              (fun i => tag ++ natDigits i))
      ∧ (titles.foldl (bookmarkStep tag) (bk, k)).1.length
          = (titles.foldl (bookmarkStep tag) (bk, k)).2 := by
  intro titles
  induction titles with
  | nil =>
    intro bk k h1 h2
    exact ⟨h1, h2⟩
  | cons t titles ih =>
    intro bk k h1 h2
    simp only [List.foldl_cons]
    by_cases hc : (!t.isEmpty && (lookupA t bk).isNone) = true
    · have hstep : bookmarkStep tag (bk, k) t
          = (bk ++ [(t, tag ++ natDigits k)], k + 1) := by
        simp [bookmarkStep, hc]
      rw [hstep]
      refine ih (bk ++ [(t, tag ++ natDigits k)]) (k + 1) ?_ ?_
      · rw [List.map_append, h1, List.range_succ, List.map_append]
        simp
      · simp [h2]
    · have hstep : bookmarkStep tag (bk, k) t = (bk, k) := by
        simp only [bookmarkStep]
        rw [if_neg hc]
      rw [hstep]
      exact ih bk k h1 h2

/-- C5: (a) two pre-scans of the same document from freshly reset generator
states (as `generate_pdf` performs, pdf.py lines 160-165 then 182) produce
identical chapter and section bookmark mappings, whatever states the
generators were in before; (b) within one pre-scan, chapter ids and section
ids are each assigned sequentially in document order from their own counters
(`chapter_0, chapter_1, …` and `section_0, section_1, …`) and are pairwise
distinct; (c) across the subsequent build passes — pass 1, and pass 2 when it
runs — neither bookmark mapping changes: the build phase only refreshes the
bookmark-id-to-page-number mapping. -/
theorem prescan_ids_stable_unique_never_reassigned (s1 s2 : PdfGenState)
    (doc : PdfDocument) (els : List PyStr) (p1 p2 : BuildOutcome) (ex : Bool) :
    (prescanChaptersAndSections (resetTracking s1) doc
        = prescanChaptersAndSections (resetTracking s2) doc)
    ∧ ((prescanChaptersAndSections (resetTracking s1) doc).chapterBookmarks.map Prod.snd
        = (List.range
            (prescanChaptersAndSections (resetTracking s1) doc).chapterBookmarks.length).map
              (fun i => str "chapter_" ++ natDigits i)
      ∧ ((prescanChaptersAndSections (resetTracking s1) doc).chapterBookmarks.map
          Prod.snd).Nodup
      ∧ (prescanChaptersAndSections (resetTracking s1) doc).sectionBookmarks.map Prod.snd
        = (List.range
            (prescanChaptersAndSections (resetTracking s1) doc).sectionBookmarks.length).map
              (fun i => str "section_" ++ natDigits i)
      ∧ ((prescanChaptersAndSections (resetTracking s1) doc).sectionBookmarks.map
          Prod.snd).Nodup)
    ∧ ((generatePdfBuildPhase (prescanChaptersAndSections (resetTracking s1) doc)
          els p1 p2 ex).state.chapterBookmarks
        = (prescanChaptersAndSections (resetTracking s1) doc).chapterBookmarks
      ∧ (generatePdfBuildPhase (prescanChaptersAndSections (resetTracking s1) doc)
          els p1 p2 ex).state.sectionBookmarks
        = (prescanChaptersAndSections (resetTracking s1) doc).sectionBookmarks) := by
  have hreset : resetTracking s1 = resetTracking s2 := rfl
  have hch := bookmarkStep_foldl_spec (str "chapter_") doc.chapterTitles [] 0 (by simp) rfl
  have hsec := bookmarkStep_foldl_spec (str "section_") (sectionTitles doc) [] 0 (by simp) rfl
  refine ⟨by rw [hreset], ⟨?_, ?_, ?_, ?_⟩, ?_⟩
  · have hb : (prescanChaptersAndSections (resetTracking s1) doc).chapterBookmarks
        = (doc.chapterTitles.foldl (bookmarkStep (str "chapter_")) ([], 0)).1 := rfl
    rw [hb, hch.1, hch.2]
  · have hb : (prescanChaptersAndSections (resetTracking s1) doc).chapterBookmarks
        = (doc.chapterTitles.foldl (bookmarkStep (str "chapter_")) ([], 0)).1 := rfl
    rw [hb, hch.1]
    exact List.Nodup.map (bookmarkId_injective (str "chapter_")) (List.nodup_range _)
  · have hb : (prescanChaptersAndSections (resetTracking s1) doc).sectionBookmarks
        = ((sectionTitles doc).foldl (bookmarkStep (str "section_")) ([], 0)).1 := rfl
    rw [hb, hsec.1, hsec.2]
  · have hb : (prescanChaptersAndSections (resetTracking s1) doc).sectionBookmarks
        = ((sectionTitles doc).foldl (bookmarkStep (str "section_")) ([], 0)).1 := rfl
    rw [hb, hsec.1]
    exact List.Nodup.map (bookmarkId_injective (str "section_")) (List.nodup_range _)
  · constructor
    · simp only [generatePdfBuildPhase, applyBuild]
      split
      · rfl
      · split
        · split <;> rfl
        · rfl
    · simp only [generatePdfBuildPhase, applyBuild]
      split
      · rfl
      · split
        · split <;> rfl
        · rfl

/-! ## BookContentProcessor.fix_image_paths_for_epub
`src/producer/fable_flow/book_utils.py`, lines 196-270, plus the
`pathlib.Path(...).name` basename extraction it uses. -/

/-- Split on `/` keeping empty pieces (the component split underlying
`pathlib` parsing). -/
def splitOnSlash : PyStr → List PyStr
  | [] => [[]]
  | c :: rest =>
    if c = '/' then [] :: splitOnSlash rest
    else
      match splitOnSlash rest with
      | [] => [[c]]
      | l :: ls => (c :: l) :: ls

/-- Python `Path(p).name`: pathlib drops empty components and `.` components
while parsing and `name` is the last remaining component (empty for a root or
empty path). -/
def pyPathName (p : PyStr) : PyStr :=
  match ((splitOnSlash p).filter
      (fun comp => !comp.isEmpty && !(comp = str "." : Bool))).getLast? with
  | some n => n
  | none => []

/-- Count the positions at which `n` occurs in the string (`=""` cannot
overlap itself, so this equals the regex engine's non-overlapping count). -/
def subOccurs (n : PyStr) : PyStr → Nat
  | [] => 0
  | c :: rest => (if startsWithB n (c :: rest) then 1 else 0) + subOccurs n rest

/-- Leftmost match of `<img[^>]*=""[^>]*=""[^>]*>` at the start of the string
(book_utils.py line 248): `<img`, then the run up to the first `>` — which
must contain at least two `=""` fragments — then `>`.  Returns the whole
matched tag and the remainder. -/
def tryMalformedImg (s : PyStr) : Option (PyStr × PyStr) :=
  match dropStart? (str "<img") s with
  | none => none
  | some r1 =>
    let seg := r1.takeWhile (fun c => !(c = '>' : Bool))
    match r1.dropWhile (fun c => !(c = '>' : Bool)) with
    | [] => none
    | _ :: r2 =>
      if 2 ≤ subOccurs (str "=\"\"") seg then
        some (str "<img" ++ seg ++ ['>'], r2)
      else none

/-- First match of `src=["\']([^"\']+)["\']` anywhere in the string
(book_utils.py line 217), returning the captured value. -/
def trySrcValAt (s : PyStr) : Option PyStr :=
  match dropStart? (str "src=") s with
  | none => none
  | some r =>
    match r with
    | [] => none
    | q :: r2 =>
      if q = '"' ∨ q = '\'' then
        let v := r2.takeWhile (fun c => !(c = '"' : Bool) && !(c = '\'' : Bool))
        if v.isEmpty then none
        else if (r2.dropWhile (fun c => !(c = '"' : Bool) && !(c = '\'' : Bool))).isEmpty
        then none
        else some v
      else none

/-- Scan for the first position where `trySrcValAt` succeeds. -/
def searchSrcVal : PyStr → Option PyStr
  | [] => none
  | c :: rest =>
    match trySrcValAt (c :: rest) with
    | some v => some v
    | none => searchSrcVal rest

/-- Match of `alt="([^"]*)"` at the start: the (possibly empty) value. -/
def tryAltAt (s : PyStr) : Option PyStr :=
  match dropStart? (str "alt=\"") s with
  | none => none
  | some r =>
    if (r.dropWhile (fun c => !(c = '"' : Bool))).isEmpty then none
    else some (r.takeWhile (fun c => !(c = '"' : Bool)))

/-- First match of `alt="([^"]*)"` (book_utils.py line 218), returning the
captured value and the index just after the match (`match.end()`). -/
def searchAltGo : Nat → PyStr → Option (PyStr × Nat)
  | _, [] => none
  | i, c :: rest =>
    match tryAltAt (c :: rest) with
    | some v => some (v, i + 5 + v.length + 1)
    | none => searchAltGo (i + 1) rest

/-- Match of `class=["\']([^"\']+)["\']` at the start. -/
def tryClassValAt (s : PyStr) : Option PyStr :=
  match dropStart? (str "class=") s with
  | none => none
  | some r =>
    match r with
    | [] => none
    | q :: r2 =>
      if q = '"' ∨ q = '\'' then
        let v := r2.takeWhile (fun c => !(c = '"' : Bool) && !(c = '\'' : Bool))
        if v.isEmpty then none
        else if (r2.dropWhile (fun c => !(c = '"' : Bool) && !(c = '\'' : Bool))).isEmpty
        then none
        else some v
      else none

/-- First match of the class pattern (book_utils.py line 219). -/
def searchClassVal : PyStr → Option PyStr
  | [] => none
  | c :: rest =>
    match tryClassValAt (c :: rest) with
    | some v => some v
    | none => searchClassVal rest

/-- Python `s.find(sub, start)`: index of the first occurrence at or after
`start` (book_utils.py line 231), `none` for -1. -/
def findFromGo (needle : PyStr) : Nat → PyStr → Option Nat
  | i, [] => if needle.isEmpty then some i else none
  | i, c :: rest =>
    if startsWithB needle (c :: rest) then some i else findFromGo needle (i + 1) rest

/-- `s.find(needle, start)`. -/
def findFrom (needle s : PyStr) (start : Nat) : Option Nat :=
  findFromGo needle start (s.drop start)

/-- The largest index `k ≥ 1` at which `=""` occurs in the run: this is where
the greedy `(\S+)` of `(\S+)=""` backtracks to. -/
def lastQQIdxGo : Nat → PyStr → Option Nat
  | _, [] => none
  | i, c :: rest =>
    match lastQQIdxGo (i + 1) rest with
    | some j => some j
    | none =>
      if 1 ≤ i ∧ startsWithB (str "=\"\"") (c :: rest) then some i else none

/-- `re.findall(r'(\S+)=""', text)` (book_utils.py line 235): scan
non-overlapping matches left to right; within each maximal non-space run the
greedy group matches up to the last `=""` in the run. -/
def fragScanGo : Nat → PyStr → List PyStr
  | _, [] => []
  | 0, _ => []
  | fuel + 1, c :: rest =>
    if isPyWs c then fragScanGo fuel rest
    else
      let run := (c :: rest).takeWhile (fun x => !isPyWs x)
      match lastQQIdxGo 0 run with
      | some k => run.take k :: fragScanGo fuel ((c :: rest).drop (k + 3))
      | none => fragScanGo fuel ((c :: rest).drop run.length)

/-- Fuel wrapper for the fragment scan. -/
def fragScan (s : PyStr) : List PyStr := fragScanGo s.length s

/-- Python `s.replace(old, new)`: replace every non-overlapping occurrence,
left to right, in a single pass. -/
def pyReplaceGo (old new : PyStr) : Nat → PyStr → PyStr
  | _, [] => []
  | 0, s => s
  | fuel + 1, c :: rest =>
    if !old.isEmpty && startsWithB old (c :: rest) then
      new ++ pyReplaceGo old new fuel ((c :: rest).drop old.length)
    else c :: pyReplaceGo old new fuel rest

/-- `s.replace(old, new)`. -/
def pyReplace (old new s : PyStr) : PyStr := pyReplaceGo old new s.length s

/-- Python `" ".join(parts)`. -/
def joinSpace : List PyStr → PyStr
  | [] => []
  | [x] => x
  | x :: xs => x ++ ' ' :: joinSpace xs

/-- `fix_malformed_alt` (book_utils.py lines 212-245): extract the essential
`src`/`alt`/`class` attributes, fold any `word=""` fragments between the alt
and src attributes back into the alt text, and rebuild a clean img tag. -/
def fixMalformedAlt (imgTag : PyStr) : PyStr :=
  match searchSrcVal imgTag with
  | none => imgTag
  | some src =>
    let altM := searchAltGo 0 imgTag
    let classAttr :=
      match searchClassVal imgTag with
      | some v => str " class=\"" ++ v ++ str "\""
      | none => []
    let altText :=
      match altM with
      | none => []
      | some (alt0, altEnd) =>
        if containsB (str "src=") imgTag then
          let between :=
            match findFrom (str "src=") imgTag altEnd with
            | some srcStart => (imgTag.drop altEnd).take (srcStart - altEnd)
            | none => (imgTag.drop altEnd).take (imgTag.length - 1 - altEnd)
          let fragments := fragScan between
          if fragments.isEmpty then alt0
          else
            pyStrip (pyReplace (str "  ") (str " ")
              (pyReplace (str "\"") (str "'") (alt0 ++ str " " ++ joinSpace fragments)))
        else alt0
    str "<img src=\"" ++ src ++ classAttr ++ str " alt=\"" ++ altText ++ str "\"/>"

/-- The first `re.sub` of `fix_image_paths_for_epub` (book_utils.py line 249):
rewrite every malformed img tag via `fixMalformedAlt`, scanning left to right.
Fuel-bounded; a match consumes at least five characters. -/
def fixMalformedScanGo : Nat → PyStr → PyStr
  | _, [] => []
  | 0, s => s
  | fuel + 1, c :: rest =>
    match tryMalformedImg (c :: rest) with
    | some (tag, after) => fixMalformedAlt tag ++ fixMalformedScanGo fuel after
    | none => c :: fixMalformedScanGo fuel rest

/-- The malformed-tag pass. -/
def fixMalformedScan (s : PyStr) : PyStr := fixMalformedScanGo s.length s

/-- `src=["\']` test at the head: the lazy `([^>]*?)src=["\']` stops at the
first position where this succeeds. -/
def trySrcQuote (s : PyStr) : Option PyStr :=
  match dropStart? (str "src=") s with
  | none => none
  | some r =>
    match r with
    | [] => none
    | q :: r2 => if q = '"' ∨ q = '\'' then some r2 else none

/-- The lazy before-group of `<img([^>]*?)src=["\']`: collect characters (none
of which may be `>`) until the first `src=` followed by a quote. -/
def scanBefore : PyStr → Option (PyStr × PyStr)
  | [] => none
  | c :: rest =>
    match trySrcQuote (c :: rest) with
    | some _ => some ([], c :: rest)
    | none =>
      if c = '>' then none
      else
        match scanBefore rest with
        | some (before, rem) => some (c :: before, rem)
        | none => none

/-- Leftmost match of `<img([^>]*?)src=["\']([^"\']*?)["\']([^>]*?)>`
(book_utils.py line 252) at the start of the string: the attribute text before
`src`, the (possibly empty) src value up to the first quote, the attribute
text after it up to the first `>`, and the remainder.  On an unclosed quote or
missing `>` the whole position fails (the regex's residual backtracking in
that pathological case is not modelled). -/
def tryImgSrcTag (s : PyStr) : Option (PyStr × PyStr × PyStr × PyStr) :=
  match dropStart? (str "<img") s with
  | none => none
  | some r1 =>
    match scanBefore r1 with
    | none => none
    | some (before, rem) =>
      match trySrcQuote rem with
      | none => none
      | some r2 =>
        let path := r2.takeWhile (fun c => !(c = '"' : Bool) && !(c = '\'' : Bool))
        match r2.dropWhile (fun c => !(c = '"' : Bool) && !(c = '\'' : Bool)) with
        | [] => none
        | _ :: r3 =>
          let afterAttrs := r3.takeWhile (fun c => !(c = '>' : Bool))
          match r3.dropWhile (fun c => !(c = '>' : Bool)) with
          | [] => none
          | _ :: rest => some (before, path, afterAttrs, rest)

/-- `replace_img_src` (book_utils.py lines 254-265): keep the surrounding
attribute text, rewrite the src to `images/` plus the basename of the old
path. -/
def imgSrcReplacement (before path afterAttrs : PyStr) : PyStr :=
  str "<img" ++ before ++ str "src=\"images/" ++ pyPathName path ++ str "\""
    ++ afterAttrs ++ ['>']

/-- The second `re.sub` of `fix_image_paths_for_epub` (book_utils.py line
268), scanning left to right. -/
def replaceImgSrcsGo : Nat → PyStr → PyStr
  | _, [] => []
  | 0, s => s
  | fuel + 1, c :: rest =>
    match tryImgSrcTag (c :: rest) with
    | some (before, path, afterAttrs, after) =>
      imgSrcReplacement before path afterAttrs ++ replaceImgSrcsGo fuel after
    | none => c :: replaceImgSrcsGo fuel rest

/-- The src-rewriting pass. -/
def replaceImgSrcs (s : PyStr) : PyStr := replaceImgSrcsGo s.length s

/-- `fix_image_paths_for_epub` (book_utils.py lines 196-270): first repair
malformed img tags, then rewrite every img src to the EPUB images directory. -/
def fixImagePathsForEpub (contentHtml : PyStr) : PyStr :=
  replaceImgSrcs (fixMalformedScan contentHtml)

/-- C10 counterexample: on `<img src="">` one application yields
`<img src="images/">` (basename of the empty path is empty), and a second
application yields `<img src="images/images">` — the function is not
idempotent. -/
theorem fix_image_paths_not_idempotent :
    fixImagePathsForEpub (str "<img src=\"\">") = str "<img src=\"images/\">"
    ∧ fixImagePathsForEpub (fixImagePathsForEpub (str "<img src=\"\">"))
        = str "<img src=\"images/images\">"
    ∧ ¬ fixImagePathsForEpub (fixImagePathsForEpub (str "<img src=\"\">"))
        = fixImagePathsForEpub (str "<img src=\"\">") := by
  refine ⟨by decide, by decide, by decide⟩

/-- A prefix occurrence is a containment. -/
theorem containsB_of_startsWith :
    ∀ (n s : PyStr), startsWithB n s = true → containsB n s = true := by
  intro n s h
  cases s with
  | nil => simpa [containsB] using h
  | cons c rest => simp [containsB, h]

/-- Prefix testing is stable under extending the text. -/
theorem startsWithB_append_left :
    ∀ (n s t : PyStr), startsWithB n s = true → startsWithB n (s ++ t) = true := by
  intro n
  induction n with
  | nil => intro s t _; rfl
  | cons a n ih =>
    intro s t h
    cases s with
    | nil => simp [startsWithB] at h
    | cons b s2 =>
      simp only [startsWithB, Bool.and_eq_true, beq_iff_eq] at h
      simp only [List.cons_append, startsWithB, Bool.and_eq_true, beq_iff_eq]
      exact ⟨h.1, ih s2 t h.2⟩

/-- Containment is stable under extending the text on the right. -/
theorem containsB_append_right_ofLeft :
    ∀ (s n t : PyStr), containsB n s = true → containsB n (s ++ t) = true := by
  intro s
  induction s with
  | nil =>
    intro n t h
    simp only [containsB] at h
    cases n with
    | nil => exact containsB_of_startsWith [] t rfl
    | cons a n2 => simp [startsWithB] at h
  | cons c s2 ih =>
    intro n t h
    simp only [containsB, Bool.or_eq_true] at h
    simp only [List.cons_append, containsB, Bool.or_eq_true]
    rcases h with h | h
    · exact Or.inl (startsWithB_append_left n (c :: s2) t h)
    · exact Or.inr (ih n t h)

/-- Containment of a one-shorter needle from containment of the longer one. -/
theorem containsB_of_containsB_cons :
    ∀ (h : PyStr) (c : Char) (n : PyStr),
      containsB (c :: n) h = true → containsB n h = true := by
  intro h
  induction h with
  | nil =>
    intro c n hh
    simp [containsB, startsWithB] at hh
  | cons a h2 ih =>
    intro c n hh
    simp only [containsB, Bool.or_eq_true] at hh
    simp only [containsB, Bool.or_eq_true]
    rcases hh with hh | hh
    · simp only [startsWithB, Bool.and_eq_true, beq_iff_eq] at hh
      exact Or.inr (containsB_of_startsWith n h2 hh.2)
    · exact Or.inr (ih c n hh)

/-- A positive occurrence count gives containment. -/
theorem containsB_of_subOccurs :
    ∀ (s n : PyStr), 1 ≤ subOccurs n s → containsB n s = true := by
  intro s
  induction s with
  | nil => intro n h; simp [subOccurs] at h
  | cons c rest ih =>
    intro n h
    simp only [subOccurs] at h
    simp only [containsB, Bool.or_eq_true]
    by_cases hs : startsWithB n (c :: rest) = true
    · exact Or.inl hs
    · rw [if_neg hs] at h
      simp only [Nat.zero_add] at h
      exact Or.inr (ih n h)

/-- A successful literal-prefix drop decomposes the string. -/
theorem dropStart?_eq_some :
    ∀ (p s r : PyStr), dropStart? p s = some r → s = p ++ r := by
  intro p
  induction p with
  | nil =>
    intro s r h
    simp only [dropStart?, Option.some.injEq] at h
    simp [h]
  | cons a p ih =>
    intro s r h
    cases s with
    | nil => simp [dropStart?] at h
    | cons b s2 =>
      simp only [dropStart?] at h
      by_cases hab : a = b
      · rw [if_pos hab] at h
        have h2 := ih s2 r h
        simp [List.cons_append, hab, h2]
      · rw [if_neg hab] at h
        simp at h

/-- A malformed-img match forces two adjacent double quotes somewhere in the
input; contrapositively, quote-pair-free text is never rewritten by the
malformed-tag pass. -/
theorem tryMalformedImg_none_of_no_qq (s : PyStr)
    (h : containsB (str "\"\"") s = false) : tryMalformedImg s = none := by
  cases hmatch : tryMalformedImg s with
  | none => rfl
  | some v =>
    exfalso
    simp only [tryMalformedImg] at hmatch
    cases hdrop : dropStart? (str "<img") s with
    | none => rw [hdrop] at hmatch; simp at hmatch
    | some r1 =>
      rw [hdrop] at hmatch
      simp only at hmatch
      cases hd2 : r1.dropWhile (fun c => !(c = '>' : Bool)) with
      | nil => rw [hd2] at hmatch; simp at hmatch
      | cons g r2 =>
        rw [hd2] at hmatch
        simp only at hmatch
        by_cases hocc : 2 ≤ subOccurs (str "=\"\"") (r1.takeWhile (fun c => !(c = '>' : Bool)))
        · have h1 : containsB (str "=\"\"") (r1.takeWhile (fun c => !(c = '>' : Bool))) = true :=
            containsB_of_subOccurs _ _ (by omega)
          have h2 : containsB (str "\"\"") (r1.takeWhile (fun c => !(c = '>' : Bool))) = true :=
            containsB_of_containsB_cons _ '=' _ h1
          have h3 : containsB (str "\"\"") r1 = true := by
            have hsplit := List.takeWhile_append_dropWhile
              (p := fun c => !(c = '>' : Bool)) (l := r1)
            calc containsB (str "\"\"") r1
                = containsB (str "\"\"") (r1.takeWhile (fun c => !(c = '>' : Bool))
                    ++ r1.dropWhile (fun c => !(c = '>' : Bool))) := by rw [hsplit]
              _ = true := containsB_append_right_ofLeft _ _ _ h2
          have hs : s = str "<img" ++ r1 := dropStart?_eq_some _ _ _ hdrop
          have h4 : containsB (str "\"\"") s = true := by
            rw [hs]
            exact containsB_append_left _ _ _ h3
          rw [h4] at h
          simp at h
        · rw [if_neg hocc] at hmatch
          simp at hmatch

/-- Quote-pair-free text passes the malformed-tag scan unchanged. -/
theorem fixMalformedScanGo_id :
    ∀ (fuel : Nat) (s : PyStr), containsB (str "\"\"") s = false →
      fixMalformedScanGo fuel s = s := by
  intro fuel
  induction fuel with
  | zero =>
    intro s _
    cases s <;> rfl
  | succ fuel ih =>
    intro s h
    cases s with
    | nil => rfl
    | cons c rest =>
      have hnone := tryMalformedImg_none_of_no_qq (c :: rest) h
      have hrest : containsB (str "\"\"") rest = false := by
        have h2 : (startsWithB (str "\"\"") (c :: rest)
            || containsB (str "\"\"") rest) = false := h
        cases hx : containsB (str "\"\"") rest
        · rfl
        · rw [hx, Bool.or_true] at h2
          exact absurd h2 (by simp)
      simp only [fixMalformedScanGo, hnone, ih rest hrest]

/-- One failing-head peel step for quote-pair containment. -/
theorem containsB_cons_false (n : PyStr) (c : Char) (R : PyStr)
    (h1 : startsWithB n (c :: R) = false) (h2 : containsB n R = false) :
    containsB n (c :: R) = false := by
  simp [containsB, h1, h2]

/-- The quote pair does not start at a non-quote character. -/
theorem startsWithB_qq_cons_ne (c : Char) (R : PyStr) (h : ¬ '"' = c) :
    startsWithB (str "\"\"") (c :: R) = false := by
  have hb : ('"' == c) = false := by simp [h]
  show (('"' == c) && startsWithB ['"'] R) = false
  rw [hb, Bool.false_and]

/-- The quote pair does not start at a quote followed by a non-quote. -/
theorem startsWithB_qq_quote_cons (c : Char) (R : PyStr) (h : ¬ '"' = c) :
    startsWithB (str "\"\"") ('"' :: c :: R) = false := by
  have hb : ('"' == c) = false := by simp [h]
  show (('"' == '"') && (('"' == c) && startsWithB [] R)) = false
  rw [hb, Bool.false_and, Bool.and_false]

/-- A quote-free run followed by a single closing quote contains no adjacent
pair of double quotes. -/
theorem no_qq_mid_quote :
    ∀ (mid : PyStr), (∀ c ∈ mid, ¬c = '"') →
      containsB (str "\"\"") (mid ++ ['"']) = false := by
  intro mid
  induction mid with
  | nil => intro _; decide
  | cons c mid2 ih =>
    intro h
    have hc : ¬c = '"' := h c (by simp)
    have hrest := ih (fun x hx => h x (by simp [hx]))
    show containsB (str "\"\"") (c :: (mid2 ++ ['"'])) = false
    exact containsB_cons_false _ c _
      (startsWithB_qq_cons_ne c _ (fun hh => hc hh.symm)) hrest

/-- The head `<img src="PATH"` of a well-formed img tag with a quote-free
nonempty path contains no adjacent pair of double quotes. -/
theorem no_qq_tag_front (path : PyStr) (hq : ∀ c ∈ path, ¬c = '"')
    (hne : path ≠ []) :
    containsB (str "\"\"") (str "<img src=\"" ++ (path ++ ['"'])) = false := by
  obtain ⟨p0, path2, rfl⟩ := List.exists_cons_of_ne_nil hne
  have hp0 : ¬p0 = '"' := hq p0 (by simp)
  have hmid := no_qq_mid_quote (p0 :: path2) hq
  have hshape : str "<img src=\"" ++ ((p0 :: path2) ++ ['"'])
      = '<' :: 'i' :: 'm' :: 'g' :: ' ' :: 's' :: 'r' :: 'c' :: '='
          :: '"' :: ((p0 :: path2) ++ ['"']) := rfl
  rw [hshape]
  refine containsB_cons_false _ '<' _ (startsWithB_qq_cons_ne '<' _ (by decide)) ?_
  refine containsB_cons_false _ 'i' _ (startsWithB_qq_cons_ne 'i' _ (by decide)) ?_
  refine containsB_cons_false _ 'm' _ (startsWithB_qq_cons_ne 'm' _ (by decide)) ?_
  refine containsB_cons_false _ 'g' _ (startsWithB_qq_cons_ne 'g' _ (by decide)) ?_
  refine containsB_cons_false _ ' ' _ (startsWithB_qq_cons_ne ' ' _ (by decide)) ?_
  refine containsB_cons_false _ 's' _ (startsWithB_qq_cons_ne 's' _ (by decide)) ?_
  refine containsB_cons_false _ 'r' _ (startsWithB_qq_cons_ne 'r' _ (by decide)) ?_
  refine containsB_cons_false _ 'c' _ (startsWithB_qq_cons_ne 'c' _ (by decide)) ?_
  refine containsB_cons_false _ '=' _ (startsWithB_qq_cons_ne '=' _ (by decide)) ?_
  refine containsB_cons_false _ '"' _ ?_ ?_
  · show startsWithB (str "\"\"") ('"' :: p0 :: (path2 ++ ['"'])) = false
    exact startsWithB_qq_quote_cons p0 _ (fun hh => hp0 hh.symm)
  · exact hmid

/-- A separator-free string is a single path component. -/
theorem splitOnSlash_no_sep : ∀ (l : PyStr), '/' ∉ l → splitOnSlash l = [l] := by
  intro l
  induction l with
  | nil => intro _; rfl
  | cons c rest ih =>
    intro h
    have hc : ¬(c = '/') := fun hh => h (by simp [hh])
    have hrest : '/' ∉ rest := fun hh => h (by simp [hh])
    simp only [splitOnSlash, if_neg hc, ih hrest]

/-- Splitting after a separator-free first component peels it off. -/
theorem splitOnSlash_append_sep : ∀ (l rest : PyStr), '/' ∉ l →
    splitOnSlash (l ++ '/' :: rest) = l :: splitOnSlash rest := by
  intro l rest
  induction l with
  | nil => intro _; simp [splitOnSlash]
  | cons c l2 ih =>
    intro h
    have hc : ¬(c = '/') := fun hh => h (by simp [hh])
    have h2 : '/' ∉ l2 := fun hh => h (by simp [hh])
    simp only [List.cons_append, splitOnSlash, if_neg hc, List.append_eq, ih h2]

/-- The component split never returns an empty list. -/
theorem splitOnSlash_ne_nil : ∀ (l : PyStr), splitOnSlash l ≠ [] := by
  intro l
  cases l with
  | nil => simp [splitOnSlash]
  | cons c rest =>
    by_cases hc : c = '/'
    · simp [splitOnSlash, hc]
    · simp only [splitOnSlash, if_neg hc]
      cases hs : splitOnSlash rest <;> simp

/-- Path components contain no separator. -/
theorem splitOnSlash_comp_no_sep :
    ∀ (l : PyStr) (comp : PyStr), comp ∈ splitOnSlash l → '/' ∉ comp := by
  intro l
  induction l with
  | nil =>
    intro comp h
    simp only [splitOnSlash, List.mem_singleton] at h
    subst h
    simp
  | cons c rest ih =>
    intro comp h
    by_cases hc : c = '/'
    · simp only [splitOnSlash, if_pos hc, List.mem_cons] at h
      rcases h with h | h
      · subst h; simp
      · exact ih comp h
    · simp only [splitOnSlash, if_neg hc] at h
      cases hs : splitOnSlash rest with
      | nil => exact absurd hs (splitOnSlash_ne_nil rest)
      | cons l0 ls =>
        rw [hs] at h
        simp only [List.mem_cons] at h
        rcases h with h | h
        · subst h
          intro hmem
          simp only [List.mem_cons] at hmem
          rcases hmem with hmem | hmem
          · exact hc hmem.symm
          · exact ih l0 (by rw [hs]; simp) hmem
        · exact ih comp (by rw [hs]; simp [h])

/-- Path-component characters come from the original path. -/
theorem splitOnSlash_comp_mem :
    ∀ (l : PyStr) (comp : PyStr) (c : Char), comp ∈ splitOnSlash l → c ∈ comp → c ∈ l := by
  intro l
  induction l with
  | nil =>
    intro comp c h hc
    simp only [splitOnSlash, List.mem_singleton] at h
    subst h
    simp at hc
  | cons a rest ih =>
    intro comp c h hc
    by_cases ha : a = '/'
    · simp only [splitOnSlash, if_pos ha, List.mem_cons] at h
      rcases h with h | h
      · subst h; simp at hc
      · exact List.mem_cons_of_mem a (ih comp c h hc)
    · simp only [splitOnSlash, if_neg ha] at h
      cases hs : splitOnSlash rest with
      | nil => exact absurd hs (splitOnSlash_ne_nil rest)
      | cons l0 ls =>
        rw [hs] at h
        simp only [List.mem_cons] at h
        rcases h with h | h
        · subst h
          simp only [List.mem_cons] at hc
          rcases hc with hc | hc
          · simp [hc]
          · exact List.mem_cons_of_mem a (ih l0 c (by rw [hs]; simp) hc)
        · exact List.mem_cons_of_mem a (ih comp c (by rw [hs]; simp [h]) hc)

/-- The basename is one of the filtered components. -/
theorem pyPathName_mem_filtered (p : PyStr) (h : ¬pyPathName p = []) :
    pyPathName p ∈ (splitOnSlash p).filter
      (fun comp => !comp.isEmpty && !(comp = str "." : Bool)) := by
  cases hg : ((splitOnSlash p).filter
      (fun comp => !comp.isEmpty && !(comp = str "." : Bool))).getLast? with
  | none => exact absurd (by simp [pyPathName, hg]) h
  | some n =>
    have hpn : pyPathName p = n := by simp [pyPathName, hg]
    rw [hpn]
    have hx : n ∈ ((splitOnSlash p).filter
        (fun comp => !comp.isEmpty && !(comp = str "." : Bool))).getLast? := by
      simp [Option.mem_def, hg]
    obtain ⟨hne, heq⟩ := List.mem_getLast?_eq_getLast hx
    rw [heq]
    exact List.getLast_mem hne

/-- The basename has no separator. -/
theorem pyPathName_no_sep (p : PyStr) (h : ¬pyPathName p = []) : '/' ∉ pyPathName p :=
  splitOnSlash_comp_no_sep p _ (List.mem_of_mem_filter (pyPathName_mem_filtered p h))

/-- The basename is not the `.` component. -/
theorem pyPathName_ne_dot (p : PyStr) (h : ¬pyPathName p = []) :
    ¬pyPathName p = str "." := by
  have hf := List.of_mem_filter (pyPathName_mem_filtered p h)
  simp only [Bool.and_eq_true, Bool.not_eq_true'] at hf
  intro hh
  rw [hh] at hf
  simp at hf

/-- Basename characters come from the path. -/
theorem pyPathName_chars_mem (p : PyStr) (c : Char) (h : ¬pyPathName p = [])
    (hc : c ∈ pyPathName p) : c ∈ p :=
  splitOnSlash_comp_mem p _ c (List.mem_of_mem_filter (pyPathName_mem_filtered p h)) hc

/-- `Path("images/" + nm).name = nm` for a well-formed basename `nm`. -/
theorem pyPathName_images (nm : PyStr) (h1 : nm ≠ []) (h2 : ¬nm = str ".")
    (h3 : '/' ∉ nm) : pyPathName (str "images/" ++ nm) = nm := by
  have hshape : str "images/" ++ nm = str "images" ++ '/' :: nm := rfl
  rw [pyPathName, hshape, splitOnSlash_append_sep (str "images") nm (by decide),
    splitOnSlash_no_sep nm h3]
  have hie : nm.isEmpty = false := by
    cases nm
    · exact absurd rfl h1
    · rfl
  have hdot : (nm = str "." : Bool) = false := by
    simp [h2]
  have hcond : (!(str "images").isEmpty && !(str "images" = str "." : Bool)) = true := by
    decide
  simp only [List.filter, hcond, hie, hdot]
  rfl

/-- A pattern avoiding a boundary character and matching across it must
already match to the left of it. -/
theorem startsWithB_append_notMem :
    ∀ (pat a : PyStr) (c : Char) (b : PyStr), c ∉ pat →
      startsWithB pat (a ++ c :: b) = true → startsWithB pat a = true := by
  intro pat
  induction pat with
  | nil => intro a c b _ _; cases a <;> rfl
  | cons p pat ih =>
    intro a c b hc h
    cases a with
    | nil =>
      exfalso
      simp only [List.nil_append, startsWithB, Bool.and_eq_true, beq_iff_eq] at h
      exact hc (by simp [h.1])
    | cons d a2 =>
      simp only [List.cons_append, startsWithB, Bool.and_eq_true, beq_iff_eq] at h
      have hc2 : c ∉ pat := fun hx => hc (List.mem_cons_of_mem p hx)
      simp only [startsWithB, Bool.and_eq_true, beq_iff_eq]
      exact ⟨h.1, ih a2 c b hc2 h.2⟩

/-- When the pattern's non-head characters avoid the boundary character, a
match reaching across a nonempty left part already starts inside it. -/
theorem startsWithB_headOnly (p0 : Char) (pat : PyStr) (d : Char) (a : PyStr)
    (c : Char) (b : PyStr) (hc : c ∉ pat)
    (h : startsWithB (p0 :: pat) ((d :: a) ++ c :: b) = true) :
    startsWithB (p0 :: pat) (d :: a) = true := by
  simp only [List.cons_append, startsWithB, Bool.and_eq_true, beq_iff_eq] at h
  simp only [startsWithB, Bool.and_eq_true, beq_iff_eq]
  exact ⟨h.1, startsWithB_append_notMem pat a c b hc h.2⟩

/-- Dropping the head of the text preserves non-containment. -/
theorem containsB_cons_elim (n : PyStr) (c : Char) (R : PyStr)
    (h : containsB n (c :: R) = false) : containsB n R = false := by
  have h2 : (startsWithB n (c :: R) || containsB n R) = false := h
  cases hx : containsB n R
  · rfl
  · rw [hx, Bool.or_true] at h2
    exact absurd h2 (by decide)

/-- A pattern avoiding a boundary character cannot occur across it: if it
occurs on neither side, it does not occur in the join. -/
theorem containsB_append_cons_notMem :
    ∀ (a n : PyStr) (c : Char) (b : PyStr), c ∉ n → n ≠ [] →
      containsB n a = false → containsB n b = false →
      containsB n (a ++ c :: b) = false := by
  intro a
  induction a with
  | nil =>
    intro n c b hc hne _ hb
    obtain ⟨p, n2, rfl⟩ := List.exists_cons_of_ne_nil hne
    have hstart : startsWithB (p :: n2) (c :: b) = false := by
      cases hx : startsWithB (p :: n2) (c :: b)
      · rfl
      · exfalso
        have h2 : (p == c && startsWithB n2 b) = true := hx
        simp only [Bool.and_eq_true, beq_iff_eq] at h2
        exact hc (by simp [h2.1])
    have hshape : containsB (p :: n2) (c :: b)
        = (startsWithB (p :: n2) (c :: b) || containsB (p :: n2) b) := rfl
    show containsB (p :: n2) (c :: b) = false
    rw [hshape, hstart, hb]
    rfl
  | cons d a2 ih =>
    intro n c b hc hne ha hb
    have ha2 : containsB n a2 = false := containsB_cons_elim n d a2 ha
    have hstart : startsWithB n ((d :: a2) ++ c :: b) = false := by
      cases hx : startsWithB n ((d :: a2) ++ c :: b)
      · rfl
      · exfalso
        have hs : startsWithB n (d :: a2) = true :=
          startsWithB_append_notMem n (d :: a2) c b hc hx
        have hcont : containsB n (d :: a2) = true := containsB_of_startsWith n (d :: a2) hs
        rw [hcont] at ha
        exact absurd ha (by decide)
    have hrec : containsB n (a2 ++ c :: b) = false := ih n c b hc hne ha2 hb
    have hshape : containsB n ((d :: a2) ++ c :: b)
        = (startsWithB n ((d :: a2) ++ c :: b) || containsB n (a2 ++ c :: b)) := rfl
    rw [hshape, hstart, hrec]
    rfl

/-- A canonical double-quoted img tag around a src path — the shape produced
by `replace_img_src` itself. -/
def imgTagC (p : PyStr) : PyStr := str "<img src=\"" ++ (p ++ str "\">")

/-- Interleave separator text and canonical img tags: the input shape for the
src-rewriting analysis, ending in a trailing separator. -/
def assembleTags : List (PyStr × PyStr) → PyStr → PyStr
  | [], post => post
  | pp :: ps, post => pp.1 ++ (imgTagC pp.2 ++ assembleTags ps post)

/-- An interleaving of quote-pair-free separators and canonical img tags with
quote-free nonempty paths contains no adjacent double-quote pair, so the
malformed-tag pass leaves it unchanged. -/
theorem assembleTags_no_qq :
    ∀ (ps : List (PyStr × PyStr)) (post : PyStr),
      (∀ pp ∈ ps, containsB (str "\"\"") pp.1 = false
        ∧ (∀ c ∈ pp.2, ¬c = '"') ∧ pp.2 ≠ []) →
      containsB (str "\"\"") post = false →
      containsB (str "\"\"") (assembleTags ps post) = false := by
  intro ps
  induction ps with
  | nil => intro post _ hpost; exact hpost
  | cons pp ps ih =>
    intro post h hpost
    obtain ⟨hpre, hq, hne⟩ := h pp (by simp)
    have hrest : containsB (str "\"\"") (assembleTags ps post) = false :=
      ih post (fun x hx => h x (by simp [hx])) hpost
    have hfront := no_qq_tag_front pp.2 hq hne
    have hshape : imgTagC pp.2 ++ assembleTags ps post
        = (str "<img src=\"" ++ (pp.2 ++ ['"'])) ++ '>' :: assembleTags ps post := by
      simp only [imgTagC, List.append_assoc, List.cons_append, List.nil_append]
      rfl
    have htag : containsB (str "\"\"") (imgTagC pp.2 ++ assembleTags ps post) = false := by
      rw [hshape]
      exact containsB_append_cons_notMem _ _ '>' _ (by decide) (by decide) hfront hrest
    have hshape2 : imgTagC pp.2 ++ assembleTags ps post
        = '<' :: (str "img src=\"" ++ (pp.2 ++ str "\">") ++ assembleTags ps post) := by
      simp only [imgTagC, List.append_assoc]
      rfl
    have htail : containsB (str "\"\"")
        (str "img src=\"" ++ (pp.2 ++ str "\">") ++ assembleTags ps post) = false := by
      rw [hshape2] at htag
      exact containsB_cons_elim _ '<' _ htag
    show containsB (str "\"\"") (pp.1 ++ (imgTagC pp.2 ++ assembleTags ps post)) = false
    rw [hshape2]
    exact containsB_append_cons_notMem _ _ '<' _ (by decide) (by decide) hpre htail

/-- `dropStart?` fails when the literal is not a prefix. -/
theorem dropStart?_none_of_not_starts :
    ∀ (p s : PyStr), startsWithB p s = false → dropStart? p s = none := by
  intro p
  induction p with
  | nil =>
    intro s h
    have hT : startsWithB [] s = true := by cases s <;> rfl
    rw [hT] at h
    exact absurd h (by decide)
  | cons a p ih =>
    intro s h
    cases s with
    | nil => rfl
    | cons b s2 =>
      have h2 : (a == b && startsWithB p s2) = false := h
      by_cases hab : a = b
      · have hps : startsWithB p s2 = false := by
          rw [hab] at h2
          simpa using h2
        simp only [dropStart?, if_pos hab, ih s2 hps]
      · simp only [dropStart?, if_neg hab]

/-- The img-src pattern requires the literal `<img` at the match position. -/
theorem tryImgSrcTag_none_not_starts (s : PyStr)
    (h : startsWithB (str "<img") s = false) : tryImgSrcTag s = none := by
  simp only [tryImgSrcTag, dropStart?_none_of_not_starts _ _ h]

/-- Text containing no `<img` anywhere passes the src-rewriting scan
unchanged. -/
theorem replaceImgSrcsGo_keep :
    ∀ (fuel : Nat) (s : PyStr), containsB (str "<img") s = false →
      replaceImgSrcsGo fuel s = s := by
  intro fuel
  induction fuel with
  | zero => intro s _; cases s <;> rfl
  | succ fuel ih =>
    intro s h
    cases s with
    | nil => rfl
    | cons c rest =>
      have h2 : (startsWithB (str "<img") (c :: rest)
          || containsB (str "<img") rest) = false := h
      have hs : startsWithB (str "<img") (c :: rest) = false := by
        cases hx : startsWithB (str "<img") (c :: rest)
        · rfl
        · rw [hx, Bool.true_or] at h2
          exact absurd h2 (by decide)
      have hr : containsB (str "<img") rest = false := by
        cases hx : containsB (str "<img") rest
        · rfl
        · rw [hx, Bool.or_true] at h2
          exact absurd h2 (by decide)
      simp only [replaceImgSrcsGo, tryImgSrcTag_none_not_starts _ hs, ih rest hr]

/-- The scan walks over separator text containing no `<img` without rewriting
anything; a match cannot straddle the boundary because the following block
starts with `<` and the pattern's later characters are not `<`. -/
theorem replaceImgSrcsGo_skip :
    ∀ (pre tl : PyStr) (fuel : Nat),
      containsB (str "<img") pre = false → pre.length ≤ fuel →
      replaceImgSrcsGo fuel (pre ++ '<' :: tl)
        = pre ++ replaceImgSrcsGo (fuel - pre.length) ('<' :: tl) := by
  intro pre
  induction pre with
  | nil => intro tl fuel _ _; simp
  | cons c pre2 ih =>
    intro tl fuel h hlen
    have hpre2 : containsB (str "<img") pre2 = false := containsB_cons_elim _ c _ h
    obtain ⟨f, rfl⟩ : ∃ f, fuel = f + 1 := by
      cases fuel
      · exact absurd hlen (by simp)
      · exact ⟨_, rfl⟩
    have hlen2 : pre2.length ≤ f := by
      simp only [List.length_cons] at hlen
      omega
    have hs : startsWithB (str "<img") (c :: (pre2 ++ '<' :: tl)) = false := by
      cases hx : startsWithB (str "<img") (c :: (pre2 ++ '<' :: tl))
      · rfl
      · exfalso
        have hpat : str "<img" = '<' :: str "img" := rfl
        rw [hpat] at hx
        have hs2 := startsWithB_headOnly '<' (str "img") c pre2 '<' tl (by decide) hx
        rw [← hpat] at hs2
        have hcont : containsB (str "<img") (c :: pre2) = true :=
          containsB_of_startsWith _ _ hs2
        rw [hcont] at h
        exact absurd h (by decide)
    have hstep : replaceImgSrcsGo (f + 1) ((c :: pre2) ++ '<' :: tl)
        = c :: replaceImgSrcsGo f (pre2 ++ '<' :: tl) := by
      simp only [List.cons_append, List.append_eq, replaceImgSrcsGo,
        tryImgSrcTag_none_not_starts _ hs]
    have harith : f + 1 - (c :: pre2).length = f - pre2.length := by
      simp only [List.length_cons]
      omega
    rw [hstep, ih tl f hpre2 hlen2, harith]
    rfl

/-- The img-src regex matches a canonical tag at the head of any remainder,
capturing the single space of attribute text before `src`, the path, and empty
trailing attribute text. -/
theorem tryImgSrcTag_tag (path rest : PyStr)
    (hq : ∀ c ∈ path, ¬c = '"' ∧ ¬c = '\'') :
    tryImgSrcTag (imgTagC path ++ rest) = some ([' '], path, [], rest) := by
  have hshape : imgTagC path ++ rest
      = str "<img" ++ (' ' :: 's' :: 'r' :: 'c' :: '=' :: '"'
          :: (path ++ '"' :: '>' :: rest)) := by
    simp only [imgTagC, List.append_assoc]
    rfl
  rw [hshape]
  have hscan : scanBefore (' ' :: 's' :: 'r' :: 'c' :: '=' :: '"'
      :: (path ++ '"' :: '>' :: rest))
      = some ([' '], 's' :: 'r' :: 'c' :: '=' :: '"' :: (path ++ '"' :: '>' :: rest)) := rfl
  have hsrcq : trySrcQuote ('s' :: 'r' :: 'c' :: '=' :: '"' :: (path ++ '"' :: '>' :: rest))
      = some (path ++ '"' :: '>' :: rest) := rfl
  have hpred : ∀ c ∈ path,
      ((fun c => !(c = '"' : Bool) && !(c = '\'' : Bool)) c) = true := by
    intro c hc
    simp [(hq c hc).1, (hq c hc).2]
  have htake : (path ++ '"' :: '>' :: rest).takeWhile
      (fun c => !(c = '"' : Bool) && !(c = '\'' : Bool)) = path :=
    takeWhile_append_stop _ path '"' ('>' :: rest) hpred (by decide)
  have hdrop : (path ++ '"' :: '>' :: rest).dropWhile
      (fun c => !(c = '"' : Bool) && !(c = '\'' : Bool)) = '"' :: '>' :: rest :=
    dropWhile_append_stop _ path '"' ('>' :: rest) hpred (by decide)
  simp only [tryImgSrcTag, dropStart?_append, hscan, hsrcq, htake, hdrop]
  rfl

/-- The scan consumes a canonical tag in one step, emitting the rewritten tag
and continuing on the remainder. -/
theorem replaceImgSrcsGo_consume (path rest : PyStr) (fuel : Nat)
    (hq : ∀ c ∈ path, ¬c = '"' ∧ ¬c = '\'') :
    replaceImgSrcsGo (fuel + 1) (imgTagC path ++ rest)
      = imgTagC (str "images/" ++ pyPathName path) ++ replaceImgSrcsGo fuel rest := by
  have hx : imgTagC path ++ rest
      = '<' :: (str "img src=\"" ++ (path ++ str "\">") ++ rest) := by
    simp only [imgTagC, List.append_assoc]
    rfl
  have hne : imgTagC path ++ rest ≠ [] := by
    rw [hx]
    exact List.cons_ne_nil _ _
  obtain ⟨c, cs, hcc⟩ := List.exists_cons_of_ne_nil hne
  rw [hcc]
  have htry : tryImgSrcTag (c :: cs) = some ([' '], path, [], rest) := by
    rw [← hcc]
    exact tryImgSrcTag_tag path rest hq
  simp only [replaceImgSrcsGo, htry]
  have hrepl : imgSrcReplacement [' '] path []
      = imgTagC (str "images/" ++ pyPathName path) := by
    simp only [imgSrcReplacement, imgTagC, List.append_assoc, List.nil_append]
    rfl
  rw [hrepl]

/-- The full src-rewriting scan over an interleaving of `<img`-free separators
and canonical tags rewrites every tag's path to `images/` plus its basename
and leaves all separator text unchanged. -/
theorem replaceImgSrcsGo_assembleTags :
    ∀ (ps : List (PyStr × PyStr)) (post : PyStr) (fuel : Nat),
      (∀ pp ∈ ps, containsB (str "<img") pp.1 = false
        ∧ (∀ c ∈ pp.2, ¬c = '"' ∧ ¬c = '\'')) →
      containsB (str "<img") post = false →
      (assembleTags ps post).length ≤ fuel →
      replaceImgSrcsGo fuel (assembleTags ps post)
        = assembleTags (ps.map (fun pp => (pp.1, str "images/" ++ pyPathName pp.2)))
            post := by
  intro ps
  induction ps with
  | nil =>
    intro post fuel _ hpost _
    exact replaceImgSrcsGo_keep fuel post hpost
  | cons pp ps ih =>
    intro post fuel h hpost hfuel
    obtain ⟨hpre, hq⟩ := h pp (by simp)
    have hps : ∀ x ∈ ps, containsB (str "<img") x.1 = false
        ∧ (∀ c ∈ x.2, ¬c = '"' ∧ ¬c = '\'') := fun x hx => h x (by simp [hx])
    have hshape : imgTagC pp.2 ++ assembleTags ps post
        = '<' :: (str "img src=\"" ++ (pp.2 ++ str "\">") ++ assembleTags ps post) := by
      simp only [imgTagC, List.append_assoc]
      rfl
    have hlen : (assembleTags (pp :: ps) post).length
        = pp.1.length + (pp.2.length + 12 + (assembleTags ps post).length) := by
      simp only [assembleTags, imgTagC, List.length_append,
        show (str "<img src=\"").length = 10 from by decide,
        show (str "\">").length = 2 from by decide]
      omega
    have hpre_le : pp.1.length ≤ fuel := by
      rw [hlen] at hfuel
      omega
    show replaceImgSrcsGo fuel (pp.1 ++ (imgTagC pp.2 ++ assembleTags ps post))
        = assembleTags ((pp.1, str "images/" ++ pyPathName pp.2) ::
            ps.map (fun x => (x.1, str "images/" ++ pyPathName x.2))) post
    rw [hshape, replaceImgSrcsGo_skip pp.1 _ fuel hpre hpre_le, ← hshape]
    obtain ⟨f2, hf2, hf2le⟩ : ∃ f2, fuel - pp.1.length = f2 + 1
        ∧ (assembleTags ps post).length ≤ f2 := by
      rw [hlen] at hfuel
      exact ⟨fuel - pp.1.length - 1, by omega, by omega⟩
    rw [hf2, replaceImgSrcsGo_consume pp.2 (assembleTags ps post) f2 hq,
      ih post f2 hps hpost hf2le]
    rfl

/-- One application of `fix_image_paths_for_epub` over the interleaving: the
malformed-tag pass is the identity (no adjacent quote pair anywhere) and the
src pass rewrites every tag. -/
theorem fixImagePaths_assembleTags (ps : List (PyStr × PyStr)) (post : PyStr)
    (h : ∀ pp ∈ ps, containsB (str "<img") pp.1 = false
      ∧ containsB (str "\"\"") pp.1 = false
      ∧ (∀ c ∈ pp.2, ¬c = '"' ∧ ¬c = '\'') ∧ pp.2 ≠ [])
    (hpost1 : containsB (str "<img") post = false)
    (hpost2 : containsB (str "\"\"") post = false) :
    fixImagePathsForEpub (assembleTags ps post)
      = assembleTags (ps.map (fun pp => (pp.1, str "images/" ++ pyPathName pp.2)))
          post := by
  have hqq : containsB (str "\"\"") (assembleTags ps post) = false :=
    assembleTags_no_qq ps post
      (fun pp hpp => ⟨(h pp hpp).2.1,
        (fun c hc => ((h pp hpp).2.2.1 c hc).1), (h pp hpp).2.2.2⟩)
      hpost2
  have hmal : fixMalformedScan (assembleTags ps post) = assembleTags ps post :=
    fixMalformedScanGo_id _ _ hqq
  rw [fixImagePathsForEpub, hmal]
  exact replaceImgSrcsGo_assembleTags ps post (assembleTags ps post).length
    (fun pp hpp => ⟨(h pp hpp).1, (h pp hpp).2.2.1⟩) hpost1 (Nat.le_refl _)

/-- C10 amended: `fix_image_paths_for_epub` is not idempotent on all HTML —
the counterexample's empty src basename turns `images/` into `images/images`
on the second run.  On input built of well-formed double-quoted img tags
`<img src="PATH">` with quote-free paths, separated by text containing neither
`<img` nor an adjacent double-quote pair, the function rewrites every tag's
src to `images/` followed by the basename of its original path, and — when
every such basename is nonempty — a second application returns the first
application's output unchanged. -/
theorem img_src_rewrite_and_idempotent (ps : List (PyStr × PyStr)) (post : PyStr)
    (hsep : ∀ pp ∈ ps, containsB (str "<img") pp.1 = false
      ∧ containsB (str "\"\"") pp.1 = false)
    (hpaths : ∀ pp ∈ ps, (∀ c ∈ pp.2, ¬c = '"' ∧ ¬c = '\'')
      ∧ ¬pyPathName pp.2 = [])
    (hpost1 : containsB (str "<img") post = false)
    (hpost2 : containsB (str "\"\"") post = false) :
    fixImagePathsForEpub (assembleTags ps post)
      = assembleTags (ps.map (fun pp => (pp.1, str "images/" ++ pyPathName pp.2))) post
    ∧ fixImagePathsForEpub (fixImagePathsForEpub (assembleTags ps post))
      = fixImagePathsForEpub (assembleTags ps post) := by
  have hcomb : ∀ pp ∈ ps, containsB (str "<img") pp.1 = false
      ∧ containsB (str "\"\"") pp.1 = false
      ∧ (∀ c ∈ pp.2, ¬c = '"' ∧ ¬c = '\'') ∧ pp.2 ≠ [] := by
    intro pp hpp
    refine ⟨(hsep pp hpp).1, (hsep pp hpp).2, (hpaths pp hpp).1, ?_⟩
    intro hnil
    exact (hpaths pp hpp).2 (by rw [hnil]; decide)
  have h1 := fixImagePaths_assembleTags ps post hcomb hpost1 hpost2
  refine ⟨h1, ?_⟩
  rw [h1]
  have hcomb2 : ∀ pp ∈ ps.map (fun x => (x.1, str "images/" ++ pyPathName x.2)),
      containsB (str "<img") pp.1 = false ∧ containsB (str "\"\"") pp.1 = false
      ∧ (∀ c ∈ pp.2, ¬c = '"' ∧ ¬c = '\'') ∧ pp.2 ≠ [] := by
    intro pp hpp
    rw [List.mem_map] at hpp
    obtain ⟨x, hx, rfl⟩ := hpp
    refine ⟨(hsep x hx).1, (hsep x hx).2, ?_, ?_⟩
    · intro c hc
      rcases List.mem_append.mp hc with hc | hc
      · refine ⟨?_, ?_⟩ <;> (intro hh; subst hh; revert hc; decide)
      · exact (hpaths x hx).1 c (pyPathName_chars_mem x.2 c (hpaths x hx).2 hc)
    · intro hnil
      have hl := congrArg List.length hnil
      simp [List.length_append,
        show (str "images/").length = 7 from by decide] at hl
  have h2 := fixImagePaths_assembleTags
    (ps.map (fun x => (x.1, str "images/" ++ pyPathName x.2))) post hcomb2 hpost1 hpost2
  have hmapeq : (ps.map (fun x => (x.1, str "images/" ++ pyPathName x.2))).map
      (fun pp => (pp.1, str "images/" ++ pyPathName pp.2))
      = ps.map (fun x => (x.1, str "images/" ++ pyPathName x.2)) := by
    rw [List.map_map]
    apply List.map_congr_left
    intro x hx
    have hname := (hpaths x hx).2
    show (x.1, str "images/" ++ pyPathName (str "images/" ++ pyPathName x.2))
        = (x.1, str "images/" ++ pyPathName x.2)
    rw [pyPathName_images (pyPathName x.2) (fun hh => hname hh)
      (pyPathName_ne_dot x.2 hname) (pyPathName_no_sep x.2 hname)]
  rw [h2, hmapeq]

/-- Witness for `img_src_rewrite_and_idempotent`: two img tags with directory
components in their paths, surrounded by plain HTML text. -/
theorem img_src_rewrite_and_idempotent_witness :
    fixImagePathsForEpub (assembleTags
        [(str "<p>hello</p>", str "pics/x.png"), (str " and ", str "b.png")]
        (str "<p>tail</p>"))
      = assembleTags
          ([(str "<p>hello</p>", str "pics/x.png"), (str " and ", str "b.png")].map
            (fun pp => (pp.1, str "images/" ++ pyPathName pp.2)))
          (str "<p>tail</p>")
    ∧ fixImagePathsForEpub (fixImagePathsForEpub (assembleTags
        [(str "<p>hello</p>", str "pics/x.png"), (str " and ", str "b.png")]
        (str "<p>tail</p>")))
      = fixImagePathsForEpub (assembleTags
          [(str "<p>hello</p>", str "pics/x.png"), (str " and ", str "b.png")]
          (str "<p>tail</p>")) :=
  img_src_rewrite_and_idempotent
    [(str "<p>hello</p>", str "pics/x.png"), (str " and ", str "b.png")]
    (str "<p>tail</p>") (by decide) (by decide) (by decide) (by decide)
